import Mathlib

/-!
# IOHexperimenter: `ioh::common` utilities and the Python logger glue

A shallow embedding of

* `include/ioh/common/utils.hpp`: `log::error`, `compare_vector`, the scalar and the
  vector `compare_objectives`, `strip`, `to_string` and `get_int_vector_parse_string`;
* `ioh/src/logger.cpp`: `PyProperty::operator()`, and `close`, `watch`, `attach_problem`
  and `add_run_attribute_python` of `PyWatcher` and `PyAnalyzer`.

Conventions of the embedding.

* A C++ call either returns, ends the process through `exit`, leaves through an uncaught
  exception, or has no defined behaviour; `Outcome` records which.
* The process-wide `log::log_level` is passed to every function that reads it.
* `std::string` is a list of characters, `std::vector<T>` a list.
* An `int` is an `Int`, or a `Nat` where it only counts up from 0; `std::stoi` checks the
  `int` range and a loop counter that would step outside the range is undefined behaviour.
* The base classes of the watchers and the Python side are declared outside these sources;
  their operations are parameters. The address a `new` returns is an argument.
-/

set_option autoImplicit false

namespace ioh
namespace common

/-! ## Outcomes of a call -/

/-- Exceptions of the standard library that the embedded code can raise. -/
inductive CppException where
  | invalid_argument
  | out_of_range
  | bad_optional_access
  | error_already_set
  deriving DecidableEq, Repr

/-- How a call ends: a normal return, `exit(code)`, an uncaught exception, or undefined
behaviour. -/
inductive Outcome (α : Type) where
  | ret (a : α)
  | exit (code : Nat)
  | throw (e : CppException)
  | ub
  deriving DecidableEq, Repr

namespace Outcome

/-- Sequencing: what follows runs only after a normal return. -/
def bind {α β : Type} (x : Outcome α) (f : α → Outcome β) : Outcome β :=
  match x with
  | ret a => f a
  | exit c => exit c
  | throw e => throw e
  | ub => ub

instance : Monad Outcome where
  pure := Outcome.ret
  bind := Outcome.bind

end Outcome

/-- Enum containing minimization = 0 and maximization = 1 flags. -/
inductive OptimizationType where
  | minimization
  | maximization
  deriving DecidableEq, Repr

namespace log

/-- Enum containing log levels; info = 0, warning = 1, error = 2. -/
inductive Level where
  | info
  | warning
  | error
  deriving DecidableEq, Repr

/-- The underlying value of a level, which `<=` on the enum class compares. -/
def Level.toNat : Level → Nat
  | Level.info => 0
  | Level.warning => 1
  | Level.error => 2

/-- Function for logging errors: `if (log_level <= Level::error) { ...; exit(1); }`.
The message only goes to `std::cerr` and is not modelled. -/
def error (log_level : Level) : Outcome Unit :=
  if log_level.toNat ≤ Level.error.toNat then Outcome.exit 1 else Outcome.ret ()

end log

/-! ## The range of `int` -/

/-- The largest `int`. -/
def INT_MAX : Int := 2147483647

/-- The smallest `int`. -/
def INT_MIN : Int := -2147483648

/-! ## `compare_vector` and `compare_objectives` -/

/-- The loop `for (auto i = 0; i != n; ++i) if (v1[i] != v2[i]) return false; return true;`
of `compare_vector`. The counter `i` is an `int`, since `auto i = 0`, compared with the
`size_t` `n`. The first argument is `n - i`, the number of iterations left; an index
outside a vector is undefined behaviour, and so is `++i` at `INT_MAX`. -/
def compare_vector_loop {T : Type} [DecidableEq T] (v1 v2 : List T) : Nat → Nat → Outcome Bool
  | 0, _ => Outcome.ret true
  | k + 1, i =>
    match v1[i]?, v2[i]? with
    | some a, some b =>
      if a ≠ b then Outcome.ret false
      else if (i : Int) = INT_MAX then Outcome.ub
      else compare_vector_loop v1 v2 k (i + 1)
    | _, _ => Outcome.ub

/-- Compares two vectors, returns true if all elements are equal. -/
def compare_vector {T : Type} [DecidableEq T] (log_level : log.Level) (v1 v2 : List T) :
    Outcome Bool := do
  let n := v1.length
  if n ≠ v2.length then
    log.error log_level
  compare_vector_loop v1 v2 n 0

/-- Compares two values v1 and v2, and returns true if v1 is better. -/
def compare_objectives {T : Type} [LT T] [DecidableRel (fun a b : T => a < b)]
    (v1 v2 : T) (optimization_type : OptimizationType) : Bool :=
  if optimization_type = OptimizationType.maximization then
    decide (v1 > v2)
  else
    decide (v1 < v2)

/-- The loop of the vector `compare_objectives`:
`for (auto i = 0; i != n; ++i) if (!compare_objectives<T>(v1[i], v2[i], type)) return false;`
followed by `return true`. The counter `i` is an `int`, since `auto i = 0`, compared with
the `size_t` `n`. The first argument is `n - i`, the number of iterations left; an index
outside a vector is undefined behaviour, and so is `++i` at `INT_MAX`. -/
def compare_objectives_loop {T : Type} [LT T] [DecidableRel (fun a b : T => a < b)]
    (v1 v2 : List T) (optimization_type : OptimizationType) : Nat → Nat → Outcome Bool
  | 0, _ => Outcome.ret true
  | k + 1, i =>
    match v1[i]?, v2[i]? with
    | some a, some b =>
      if !compare_objectives a b optimization_type then Outcome.ret false
      else if (i : Int) = INT_MAX then Outcome.ub
      else compare_objectives_loop v1 v2 optimization_type k (i + 1)
    | _, _ => Outcome.ub

/-- Compares two vectors v1 and v2, and checks if v1 is better than v2. -/
def compare_objectives_vector {T : Type} [LT T] [DecidableRel (fun a b : T => a < b)]
    (log_level : log.Level) (v1 v2 : List T) (optimization_type : OptimizationType) :
    Outcome Bool := do
  let n := v1.length
  if n ≠ v2.length then
    log.error log_level
  compare_objectives_loop v1 v2 optimization_type n 0

/-! ## Strings -/

/-- The blank `' '`. -/
def blank : Char := Char.ofNat 32

/-- The carriage return. -/
def carriage_return : Char := Char.ofNat 13

/-- Strips whitespace from a string:
`s.erase(0, s.find_first_not_of(' ')); s.erase(s.find_last_not_of('\r') + 1);
s.erase(s.find_last_not_of(' ') + 1);`. -/
def strip (s : List Char) : List Char :=
  if s.isEmpty then s
  else
    let s := s.dropWhile (fun c => c == blank)
    let s := s.rdropWhile (fun c => c == carriage_return)
    let s := s.rdropWhile (fun c => c == blank)
    s

/-- Converts a value v to a string (`ss << v` for an `int`): the decimal digits, after a
minus sign for a negative value. -/
def to_string (v : Int) : List Char :=
  if v < 0 then '-' :: Nat.toDigits 10 v.natAbs else Nat.toDigits 10 v.toNat

/-- The value of a decimal digit. -/
def digit_value (c : Char) : Nat := c.toNat - 48

/-- The number a run of decimal digits denotes. -/
def digits_value (ds : List Char) : Nat :=
  ds.foldl (fun acc c => 10 * acc + digit_value c) 0

/-- The characters `isspace` accepts in the C locale: the blank and the codes 9 to 13. -/
def isspace (c : Char) : Bool := c.toNat == 32 || (9 ≤ c.toNat && c.toNat ≤ 13)

/-- The standard library's `std::stoi(str)`: leading whitespace is skipped, an optional sign
is read, then the longest run of decimal digits. No digit raises `std::invalid_argument`, a
value that is no `int` raises `std::out_of_range`. -/
def stoi (str : List Char) : Outcome Int :=
  let s := str.dropWhile isspace
  let signed : Bool × List Char :=
    match s with
    | c :: t => if c = '-' then (true, t) else if c = '+' then (false, t) else (false, s)
    | [] => (false, s)
  let ds := signed.2.takeWhile Char.isDigit
  if ds.isEmpty then Outcome.throw CppException.invalid_argument
  else
    let v : Int := if signed.1 then -(digits_value ds : Int) else (digits_value ds : Int)
    if v < INT_MIN ∨ INT_MAX < v then Outcome.throw CppException.out_of_range
    else Outcome.ret v

/-- One `getline(stream, tmp, delim)` on the characters `raw` a stream still holds: nothing
is extracted from an exhausted stream and the read fails; otherwise `tmp` is the characters
before the first delimiter, and the stream keeps what follows that delimiter. -/
def getline (delim : Char) (raw : List Char) : Option (List Char × List Char) :=
  if raw.isEmpty then none
  else some (raw.takeWhile (fun c => c != delim), (raw.dropWhile (fun c => c != delim)).drop 1)

/-- The loop `while (getline(raw, tmp, delim)) s.push_back(tmp);`. Each successful read
extracts at least one character, so `raw.length + 1` reads exhaust any stream: the first
argument bounds the number of reads. -/
def getline_loop (delim : Char) : Nat → List Char → List (List Char)
  | 0, _ => []
  | fuel + 1, raw =>
    match getline delim raw with
    | none => []
    | some (tmp, rest) => tmp :: getline_loop delim fuel rest

/-- The fields of `input` between the delimiters, as the `getline` loop collects them. -/
def getlines (delim : Char) (input : List Char) : List (List Char) :=
  getline_loop delim (input.length + 1) input

/-! ## `get_int_vector_parse_string` -/

/-- The loop `for (auto& e : input) if (e != ',' && e != '-' && !isdigit(e)) log::error(..)`. -/
def check_characters (log_level : log.Level) : List Char → Outcome Unit
  | [] => Outcome.ret ()
  | e :: es => do
    if e ≠ ',' ∧ e ≠ '-' ∧ ¬ e.isDigit then
      log.error log_level
    check_characters log_level es

/-- The loop `for (auto value = first; value <= last; ++value) result.push_back(value);`.
The first argument is `INT_MAX - value`, the number of increments that keep `value` an
`int`: with none left, a further `++value` overflows. -/
def push_ascending : Nat → Int → Int → List Int → Outcome (List Int)
  | 0, value, last, result => if value ≤ last then Outcome.ub else Outcome.ret result
  | k + 1, value, last, result =>
    if value ≤ last then push_ascending k (value + 1) last (result ++ [value])
    else Outcome.ret result

/-- The loop `for (auto value = first; value <= last; --value) result.push_back(value);`.
The first argument is `value - INT_MIN`, the number of decrements that keep `value` an
`int`: with none left, a further `--value` overflows. -/
def push_descending : Nat → Int → Int → List Int → Outcome (List Int)
  | 0, value, last, result => if value ≤ last then Outcome.ub else Outcome.ret result
  | k + 1, value, last, result =>
    if value ≤ last then push_descending k (value - 1) last (result ++ [value])
    else Outcome.ret result

/-- The body of the loop over the comma-separated fields `s[i]`, `0 <= i < n`. -/
def parse_field (log_level : log.Level) (min max : Int) (n i : Nat) (si : List Char)
    (result : List Int) : Outcome (List Int) :=
  if si.headD (Char.ofNat 0) = '-' then
    -- The condition beginning with "-m"
    if i ≠ 0 then do
      log.error log_level
      pure result
    else do
      let tmp := si.drop 1
      if '-' ∈ tmp then
        log.error log_level
      let tmp_value ← stoi tmp
      if tmp_value < min then
        log.error log_level
      push_ascending (INT_MAX - min).toNat min tmp_value result
  else
    match si.getLast? with
    | none => Outcome.ub
    | some c =>
      if c = '-' then
        -- The condition ending with "n-"
        if i + 1 ≠ n then do
          log.error log_level
          pure result
        else do
          let tmp := si.take (si.length - 1)
          if '-' ∈ tmp then
            log.error log_level
          let tmp_value ← stoi tmp
          if tmp_value > max then
            log.error log_level
          push_descending (max - INT_MIN).toNat max tmp_value result
      else
        -- The condition with "n-m,n-x-m"
        let tmp_vector := getlines '-' si
        match tmp_vector.head?, tmp_vector.getLast? with
        | some first, some last => do
          let tmp_value ← stoi first
          let tmp_value2 ← stoi last
          if tmp_value > tmp_value2 then
            log.error log_level
          if tmp_value < min then
            log.error log_level
          if tmp_value2 > max then
            log.error log_level
          push_ascending (INT_MAX - tmp_value).toNat tmp_value tmp_value2 result
        | _, _ => Outcome.ub

/-- The loop `for (auto i = 0; i < n; ++i)` over the fields not yet visited. -/
def parse_fields (log_level : log.Level) (min max : Int) (n : Nat) :
    Nat → List (List Char) → List Int → Outcome (List Int)
  | _, [], result => Outcome.ret result
  | i, si :: rest, result => do
    let result ← parse_field log_level min max n i si result
    parse_fields log_level min max n (i + 1) rest result

/-- Retrieves an integer vector from a string. -/
def get_int_vector_parse_string (log_level : log.Level) (input : List Char) (min max : Int) :
    Outcome (List Int) := do
  let input := strip input
  check_characters log_level input
  let s := getlines ',' input
  let n := s.length
  parse_fields log_level min max n 0 s []

end common

/-! ## Triggers and properties -/

namespace logger

/-- Modelled from the spec: `logger::Info` is declared in a header that is not among the
sources. The per-evaluation snapshot `{evaluation_count, raw_y, transformed_y, raw_y_best,
transformed_y_best, has_improved}`, over a type `T` of objective values. -/
structure Info (T : Type) where
  evaluation_count : Nat
  raw_y : T
  transformed_y : T
  raw_y_best : T
  transformed_y_best : T
  has_improved : Bool

end logger

namespace trigger

/-- Modelled from the spec: `trigger::OnImprovement` is declared in a header that is not
among the sources; `logger.cpp` only binds its constructor and its accessors `best()` and
`type()`. It holds `best: optional<float64>` and `direction: {minimize, maximize}`. -/
structure OnImprovement (T : Type) where
  best : Option T
  direction : common.OptimizationType

namespace OnImprovement

/-- Modelled from the spec: `fire` of `trigger::OnImprovement`, which is not among the
sources. It "returns true, and updates `best`, exactly when `info.transformed_y` is
strictly better than `best` under `direction` (or `best` is unset — first call always
fires)". The result is the answer and the trigger afterwards. -/
def fire {T : Type} [LT T] [DecidableRel (fun a b : T => a < b)]
    (self : OnImprovement T) (info : logger.Info T) : Bool × OnImprovement T :=
  match self.best with
  | none => (true, OnImprovement.mk (some info.transformed_y) self.direction)
  | some best =>
    if common.compare_objectives info.transformed_y best self.direction then
      (true, OnImprovement.mk (some info.transformed_y) self.direction)
    else (false, self)

/-- Modelled from the spec: `reset()` of `trigger::OnImprovement` "clears `best`". -/
def reset {T : Type} (self : OnImprovement T) : OnImprovement T :=
  OnImprovement.mk none self.direction

/-- The answers of `fire` on a sequence of calls, in call order. -/
def fire_all {T : Type} [LT T] [DecidableRel (fun a b : T => a < b)] :
    OnImprovement T → List (logger.Info T) → List Bool
  | _, [] => []
  | self, info :: infos => (self.fire info).1 :: fire_all (self.fire info).2 infos

end OnImprovement

end trigger

/-- The Python side of `PyProperty`, which belongs to CPython and pybind11: the object
`Py_None`, the conversion `PyFloat_AsDouble`, and attribute lookup on an object (`none`
when the object has no such attribute). `Obj` is the type of Python objects and `Double`
that of doubles. -/
structure Python (Obj Double : Type) where
  Py_None : Obj
  PyFloat_AsDouble : Obj → Double
  getattr : Obj → List Char → Option Obj

/-- The test `py::hasattr(obj, name)`. -/
def Python.hasattr {Obj Double : Type} (py : Python Obj Double) (obj : Obj)
    (name : List Char) : Bool :=
  (py.getattr obj name).isSome

/-- The property `PyProperty` of `logger.cpp`: a container and the name of an attribute. -/
structure PyProperty (Obj : Type) where
  container_ : Obj
  attribute_ : List Char

/-- The call operator `PyProperty::operator()(const logger::Info &)`. Reading an attribute
the container does not have makes pybind11 raise `error_already_set`. -/
def PyProperty.call {Obj Double T : Type} [DecidableEq Obj] (py : Python Obj Double)
    (self : PyProperty Obj) (_info : logger.Info T) : common.Outcome (Option Double) :=
  if py.hasattr self.container_ self.attribute_ then
    match py.getattr self.container_ self.attribute_ with
    | none => common.Outcome.throw common.CppException.error_already_set
    | some pyobj =>
      if pyobj ≠ py.Py_None then common.Outcome.ret (some (py.PyFloat_AsDouble pyobj))
      else common.Outcome.ret none
  else common.Outcome.ret none

/-! ## The watchers `PyWatcher` and `PyAnalyzer` -/

/-- The member `std::optional::value()`: the held value, or `std::bad_optional_access`. -/
def optional_value {α : Type} (o : Option α) : common.Outcome α :=
  match o with
  | some a => common.Outcome.ret a
  | none => common.Outcome.throw common.CppException.bad_optional_access

/-- A `PyProperty *`: the address `new` returned and the object there, whose members are
all `const`. -/
structure PyPropertyPtr (Obj : Type) where
  addr : Nat
  target : PyProperty Obj

/-- What a call to `close` does outside the object: an invocation of the underlying
`WatcherType::close()`, the `delete` of a `PyProperty *`, the `delete` of a `double *`. -/
inductive Release where
  | base_close
  | delete_property (addr : Nat)
  | delete_double (addr : Nat)
  deriving DecidableEq, Repr

/-- The class `WatcherType` a `PyWatcher` derives from, declared outside the sources: its
state is of type `W`, and `close`, `watch(Property &)` and `attach_problem` are given as
transformations of that state. -/
structure WatcherType (W Obj MetaData : Type) where
  close : W → W
  watch : W → PyPropertyPtr Obj → W
  attach_problem : W → MetaData → W

/-- The class `logger::Analyzer`, declared outside the sources: a `WatcherType` with
`add_run_attribute(name, double *)` and the lookup `attributes_.run.at(name)`, which finds
the `double *` registered under a name or nothing. -/
structure AnalyzerType (W Obj MetaData : Type) extends WatcherType W Obj MetaData where
  add_run_attribute : W → List Char → Nat → W
  run_at : W → List Char → Option Nat

/-- The class `PyWatcher<WatcherType>`: the `WatcherType` it derives from, `alive` and
`property_ptrs_`. -/
structure PyWatcher (W Obj : Type) where
  base : W
  alive : Bool
  property_ptrs_ : List (PyPropertyPtr Obj)

namespace PyWatcher

/-- The members after construction: `bool alive = true` and no property pointer. -/
def init {W Obj : Type} (base : W) : PyWatcher W Obj :=
  PyWatcher.mk base true []

/-- The method `PyWatcher::close()`: the watcher afterwards and what was released, in
order. -/
def close {W Obj MetaData : Type} (wt : WatcherType W Obj MetaData) (self : PyWatcher W Obj) :
    PyWatcher W Obj × List Release :=
  if self.alive then
    (PyWatcher.mk (wt.close self.base) false [],
      Release.base_close :: self.property_ptrs_.map (fun ptr => Release.delete_property ptr.addr))
  else (self, [])

/-- The override `watch(logger::Property &property)`, which `PYBIND11_OVERRIDE` forwards to
`WatcherType::watch`. -/
def watch_property {W Obj MetaData : Type} (wt : WatcherType W Obj MetaData)
    (self : PyWatcher W Obj) (property : PyPropertyPtr Obj) : PyWatcher W Obj :=
  PyWatcher.mk (wt.watch self.base property) self.alive self.property_ptrs_

/-- The method `watch(const py::object &container, const std::string &attribute)`:
`auto *p = new PyProperty(container, attribute); watch(*p); property_ptrs_.push_back(p);`.
The address `p_addr` is the one `new` returns. -/
def watch {W Obj MetaData : Type} (wt : WatcherType W Obj MetaData) (self : PyWatcher W Obj)
    (p_addr : Nat) (container : Obj) (attr : List Char) : PyWatcher W Obj :=
  let p := PyPropertyPtr.mk p_addr (PyProperty.mk container attr)
  let self := self.watch_property wt p
  PyWatcher.mk self.base self.alive (self.property_ptrs_ ++ [p])

/-- The override `attach_problem(const problem::MetaData &problem)`, which
`PYBIND11_OVERRIDE` forwards to `WatcherType::attach_problem`. -/
def attach_problem {W Obj MetaData : Type} (wt : WatcherType W Obj MetaData)
    (self : PyWatcher W Obj) (problem : MetaData) : PyWatcher W Obj :=
  PyWatcher.mk (wt.attach_problem self.base problem) self.alive self.property_ptrs_

end PyWatcher

/-- The class `PyAnalyzer`: the `PyWatcher<logger::Analyzer>` it derives from,
`double_ptrs_` and `prop_ptrs_`. -/
structure PyAnalyzer (W Obj : Type) where
  watcher : PyWatcher W Obj
  double_ptrs_ : List Nat
  prop_ptrs_ : List (PyPropertyPtr Obj)

namespace PyAnalyzer

/-- The members after construction. -/
def init {W Obj : Type} (base : W) : PyAnalyzer W Obj :=
  PyAnalyzer.mk (PyWatcher.init base) [] []

/-- The method `clear_ptrs()`: every `double_ptrs_` entry is deleted, then every
`prop_ptrs_` entry, and both vectors are cleared. -/
def clear_ptrs {W Obj : Type} (self : PyAnalyzer W Obj) : PyAnalyzer W Obj × List Release :=
  (PyAnalyzer.mk self.watcher [] [],
    self.double_ptrs_.map (fun ptr => Release.delete_double ptr)
      ++ self.prop_ptrs_.map (fun ptr => Release.delete_property ptr.addr))

/-- The method `PyAnalyzer::close()`: `if (alive) { clear_ptrs(); Analyzer::close(); }`,
where `Analyzer::close` is `PyWatcher<logger::Analyzer>::close`. -/
def close {W Obj MetaData : Type} (ops : AnalyzerType W Obj MetaData)
    (self : PyAnalyzer W Obj) : PyAnalyzer W Obj × List Release :=
  if self.watcher.alive then
    let cleared := self.clear_ptrs
    let closed := cleared.1.watcher.close ops.toWatcherType
    (PyAnalyzer.mk closed.1 cleared.1.double_ptrs_ cleared.1.prop_ptrs_, cleared.2 ++ closed.2)
  else (self, [])

/-- The overload `add_run_attribute_python(const std::string &name, double value)`:
`double *ptr = new double(value); Analyzer::add_run_attribute(name, ptr);
double_ptrs_.push_back(ptr);`. The address `d_addr` is the one `new` returns; the second
component lists the `double` cells written, with the value written. -/
def add_run_attribute_python_value {W Obj MetaData Double : Type}
    (ops : AnalyzerType W Obj MetaData) (self : PyAnalyzer W Obj) (d_addr : Nat)
    (name : List Char) (value : Double) : PyAnalyzer W Obj × List (Nat × Double) :=
  (PyAnalyzer.mk
      (PyWatcher.mk (ops.add_run_attribute self.watcher.base name d_addr) self.watcher.alive
        self.watcher.property_ptrs_)
      (self.double_ptrs_ ++ [d_addr]) self.prop_ptrs_,
    [(d_addr, value)])

/-- The overload `add_run_attribute_python(const py::object &container, const std::string
&name)`: `auto *p = new PyProperty(container, name); add_run_attribute_python(name,
(*p)(logger::Info{}).value()); prop_ptrs_.push_back(p);`. `empty_info` is the value
`logger::Info{}`, `p_addr` and `d_addr` are the addresses the two `new` return. -/
def add_run_attribute_python {W Obj MetaData Double T : Type} [DecidableEq Obj]
    (py : Python Obj Double) (ops : AnalyzerType W Obj MetaData) (self : PyAnalyzer W Obj)
    (empty_info : logger.Info T) (p_addr d_addr : Nat) (container : Obj) (name : List Char) :
    common.Outcome (PyAnalyzer W Obj × List (Nat × Double)) := do
  let p := PyPropertyPtr.mk p_addr (PyProperty.mk container name)
  let r ← p.target.call py empty_info
  let value ← optional_value r
  let added := self.add_run_attribute_python_value ops d_addr name value
  pure (PyAnalyzer.mk added.1.watcher added.1.double_ptrs_ (added.1.prop_ptrs_ ++ [p]), added.2)

/-- The method `set_run_attribute_python(name, value)`: `*(attributes_.run.at(name)) =
value;`, where `at` raises `std::out_of_range` for a name that is not registered. The
result is the cell written. -/
def set_run_attribute_python {W Obj MetaData Double : Type} (ops : AnalyzerType W Obj MetaData)
    (self : PyAnalyzer W Obj) (name : List Char) (value : Double) :
    common.Outcome (Nat × Double) :=
  match ops.run_at self.watcher.base name with
  | some addr => common.Outcome.ret (addr, value)
  | none => common.Outcome.throw common.CppException.out_of_range

/-- The loop `for (auto ptr : prop_ptrs_) set_run_attribute_python(ptr->name(),
(*ptr)(logger::Info{}).value());` of `attach_problem`, over the pointers not yet visited.
The name of a `PyProperty` is its attribute. The result lists the cells written. -/
def attach_problem_loop {W Obj MetaData Double T : Type} [DecidableEq Obj]
    (py : Python Obj Double) (ops : AnalyzerType W Obj MetaData) (self : PyAnalyzer W Obj)
    (empty_info : logger.Info T) :
    List (PyPropertyPtr Obj) → common.Outcome (List (Nat × Double))
  | [] => common.Outcome.ret []
  | ptr :: rest => do
    let r ← ptr.target.call py empty_info
    let value ← optional_value r
    let written ← self.set_run_attribute_python ops ptr.target.attribute_ value
    let others ← attach_problem_loop py ops self empty_info rest
    pure (written :: others)

/-- The override `PyAnalyzer::attach_problem(const problem::MetaData &problem)`: the loop
over `prop_ptrs_`, then `Analyzer::attach_problem(problem)`. -/
def attach_problem {W Obj MetaData Double T : Type} [DecidableEq Obj]
    (py : Python Obj Double) (ops : AnalyzerType W Obj MetaData) (self : PyAnalyzer W Obj)
    (empty_info : logger.Info T) (problem : MetaData) :
    common.Outcome (PyAnalyzer W Obj × List (Nat × Double)) := do
  let written ← attach_problem_loop py ops self empty_info self.prop_ptrs_
  pure (PyAnalyzer.mk (self.watcher.attach_problem ops.toWatcherType problem)
    self.double_ptrs_ self.prop_ptrs_, written)

end PyAnalyzer

/-! ## Notions used to state the properties -/

namespace common

/-- The list `[first, first + 1, ..., last]` of consecutive integers (empty when
`last < first`). -/
def int_range (first last : Int) : List Int :=
  (List.range (last + 1 - first).toNat).map (fun j : Nat => first + (j : Int))

/-- The fields joined by dashes: `[a, b, c]` gives `a-b-c`. -/
def dash_joined (fields : List (List Char)) : List Char :=
  List.intercalate ['-'] fields

end common

/-- The attribute `name` of `container` gives no value: the container lacks it, or it is
`None`. -/
def Python.unresolved {Obj Double : Type} (py : Python Obj Double) (container : Obj)
    (name : List Char) : Prop :=
  py.getattr container name = none ∨ py.getattr container name = some py.Py_None

/-- A Python side for examples, with objects numbered by `Nat` and integers for doubles:
object 0 is `None`; object 1 has the attribute `x`, bound to object 7; object 2 has the
attribute `x`, bound to `None`; there is no other attribute. -/
def sample_python : Python Nat Int :=
  Python.mk 0 (fun obj => (obj : Int))
    (fun obj name =>
      if name = ['x'] then (if obj = 1 then some 7 else if obj = 2 then some 0 else none)
      else none)

/-- The Python side of `sample_python` after `x` was removed from object 1: no object has
an attribute. -/
def sample_python_later : Python Nat Int :=
  Python.mk 0 (fun obj => (obj : Int)) (fun _ _ => none)

/-- A base class for examples: it counts the calls of `close`, lists the addresses of the
properties watched and keeps the run attributes as pairs of a name and an address. -/
structure SampleBase where
  closes : Nat
  watched : List Nat
  run : List (List Char × Nat)
  deriving DecidableEq, Repr

/-- The operations of the base class for examples. -/
def sample_analyzer : AnalyzerType SampleBase Nat Unit :=
  AnalyzerType.mk
    (WatcherType.mk
      (fun b => SampleBase.mk (b.closes + 1) b.watched b.run)
      (fun b property => SampleBase.mk b.closes (b.watched ++ [property.addr]) b.run)
      (fun b _ => b))
    (fun b name addr => SampleBase.mk b.closes b.watched ((name, addr) :: b.run))
    (fun b name => b.run.lookup name)

/-- The value `logger::Info{}` for examples. -/
def sample_info : logger.Info Int :=
  logger.Info.mk 0 0 0 0 0 false

/-- A watcher for examples that was constructed, closed, and then asked to watch the
attribute `x` of object 1. -/
def sample_watcher_after_close : PyWatcher SampleBase Nat :=
  ((PyWatcher.init (SampleBase.mk 0 [] [])).close sample_analyzer.toWatcherType).1.watch
    sample_analyzer.toWatcherType 100 1 ['x']

end ioh

/-! # Properties -/

namespace ioh
namespace common

/-! ## Sequencing -/

@[simp] theorem Outcome.pure_eq {α : Type} (a : α) : (pure a : Outcome α) = Outcome.ret a := rfl

@[simp] theorem Outcome.ret_bind {α β : Type} (a : α) (f : α → Outcome β) :
    (Outcome.ret a >>= f) = f a := rfl

@[simp] theorem Outcome.exit_bind {α β : Type} (c : Nat) (f : α → Outcome β) :
    (Outcome.exit c >>= f) = Outcome.exit c := rfl

@[simp] theorem Outcome.throw_bind {α β : Type} (e : CppException) (f : α → Outcome β) :
    (Outcome.throw e >>= f) = Outcome.throw e := rfl

@[simp] theorem Outcome.ub_bind {α β : Type} (f : α → Outcome β) :
    ((Outcome.ub : Outcome α) >>= f) = Outcome.ub := rfl

/-- `log::error` ends the process whatever the log level is. -/
@[simp] theorem log.error_eq_exit (log_level : log.Level) :
    log.error log_level = Outcome.exit 1 := by
  cases log_level <;> rfl

end common
end ioh

namespace ioh
namespace common

/-! ## Comparing objectives -/

/-- C1: the scalar `compare_objectives(v1, v2, type)` is true exactly when `v1 < v2` under
minimization and exactly when `v1 > v2` under maximization; under either type a value is
never better than itself. -/
theorem compare_objectives_scalar {T : Type} [Preorder T]
    [DecidableRel (fun a b : T => a < b)] (v1 v2 : T) :
    (compare_objectives v1 v2 OptimizationType.minimization = true ↔ v1 < v2) ∧
    (compare_objectives v1 v2 OptimizationType.maximization = true ↔ v1 > v2) ∧
    (∀ t : OptimizationType, compare_objectives v1 v1 t = false) := by
  refine ⟨?_, ?_, ?_⟩
  · simp [compare_objectives]
  · simp [compare_objectives]
  · intro t
    cases t <;> simp [compare_objectives]

/-- The loop of the vector comparison from index `i` on, when both vectors have `i + k`
elements and that is at most `INT_MAX`: it returns, and returns true exactly when every
pair from `i` on is better. -/
theorem compare_objectives_loop_spec {T : Type} [LT T] [DecidableRel (fun a b : T => a < b)]
    (v1 v2 : List T) (t : OptimizationType) (hmax : (v1.length : Int) ≤ INT_MAX) :
    ∀ (k i : Nat), i + k = v1.length → i + k = v2.length →
      ∃ b : Bool, compare_objectives_loop v1 v2 t k i = Outcome.ret b ∧
        (b = true ↔ ∀ (j : Nat) (h1 : j < v1.length) (h2 : j < v2.length), i ≤ j →
          compare_objectives (v1.get ⟨j, h1⟩) (v2.get ⟨j, h2⟩) t = true) := by
  intro k
  induction k with
  | zero =>
    intro i h1 _
    refine ⟨true, rfl, ?_⟩
    simp only [true_iff]
    intro j hj _ hij
    omega
  | succ k ih =>
    intro i h1 h2
    have hi1 : i < v1.length := by omega
    have hi2 : i < v2.length := by omega
    have hne : ¬ ((i : Int) = INT_MAX) := by omega
    obtain ⟨b, hb, hiff⟩ := ih (i + 1) (by omega) (by omega)
    by_cases hc : compare_objectives (v1.get ⟨i, hi1⟩) (v2.get ⟨i, hi2⟩) t = true
    · refine ⟨b, ?_, ?_⟩
      · simp only [List.get_eq_getElem] at hc
        simp [compare_objectives_loop, List.getElem?_eq_getElem hi1,
          List.getElem?_eq_getElem hi2, hc, hb, hne]
      · rw [hiff]
        constructor
        · intro h j hj1 hj2 hij
          rcases Nat.eq_or_lt_of_le hij with heq | hlt
          · subst heq
            exact hc
          · exact h j hj1 hj2 hlt
        · intro h j hj1 hj2 hij
          exact h j hj1 hj2 (by omega)
    · refine ⟨false, ?_, ?_⟩
      · simp only [List.get_eq_getElem] at hc
        simp [compare_objectives_loop, List.getElem?_eq_getElem hi1,
          List.getElem?_eq_getElem hi2, hc]
      · simp only [Bool.false_eq_true, false_iff]
        intro h
        exact hc (h i hi1 hi2 (Nat.le_refl i))

/-- For vectors of the same length, at most `INT_MAX`, the vector `compare_objectives`
returns, and its answer is true exactly when the scalar `compare_objectives` holds at every
index; one pair that is not better makes the answer false. -/
theorem compare_objectives_vector_all {T : Type} [LT T] [DecidableRel (fun a b : T => a < b)]
    (log_level : log.Level) (v1 v2 : List T) (t : OptimizationType)
    (hlen : v1.length = v2.length) (hmax : (v1.length : Int) ≤ INT_MAX) :
    ∃ b : Bool, compare_objectives_vector log_level v1 v2 t = Outcome.ret b ∧
      (b = true ↔ ∀ (i : Nat) (h1 : i < v1.length) (h2 : i < v2.length),
        compare_objectives (v1.get ⟨i, h1⟩) (v2.get ⟨i, h2⟩) t = true) ∧
      (b = false ↔ ∃ (i : Nat) (h1 : i < v1.length) (h2 : i < v2.length),
        compare_objectives (v1.get ⟨i, h1⟩) (v2.get ⟨i, h2⟩) t = false) := by
  obtain ⟨b, hb, hiff⟩ :=
    compare_objectives_loop_spec v1 v2 t hmax v1.length 0 (by omega) (by omega)
  have hall : b = true ↔ ∀ (i : Nat) (h1 : i < v1.length) (h2 : i < v2.length),
      compare_objectives (v1.get ⟨i, h1⟩) (v2.get ⟨i, h2⟩) t = true := by
    rw [hiff]
    exact ⟨fun h i h1 h2 => h i h1 h2 (Nat.zero_le i), fun h i h1 h2 _ => h i h1 h2⟩
  refine ⟨b, ?_, hall, ?_⟩
  · simp [compare_objectives_vector, ← hlen, hb]
  · constructor
    · intro hf
      by_contra hne
      have : b = true := hall.mpr (by
        intro i h1 h2
        by_contra hc
        exact hne ⟨i, h1, h2, by simpa using hc⟩)
      rw [hf] at this
      exact Bool.false_ne_true this
    · rintro ⟨i, h1, h2, hc⟩
      cases hbv : b with
      | false => rfl
      | true =>
        have := hall.mp hbv i h1 h2
        rw [hc] at this
        exact absurd this Bool.false_ne_true

/-- At a concrete input: under minimization `[1, 2, 3]` against `[2, 2, 4]` has an equal
pair at index 1, so the answer is false. -/
theorem compare_objectives_vector_all_witness :
    ∃ b : Bool, compare_objectives_vector log.Level.info [(1 : Int), 2, 3] [2, 2, 4]
        OptimizationType.minimization = Outcome.ret b ∧
      (b = true ↔ ∀ (i : Nat) (h1 : i < [(1 : Int), 2, 3].length)
        (h2 : i < [(2 : Int), 2, 4].length),
        compare_objectives ([(1 : Int), 2, 3].get ⟨i, h1⟩) ([(2 : Int), 2, 4].get ⟨i, h2⟩)
          OptimizationType.minimization = true) ∧
      (b = false ↔ ∃ (i : Nat) (h1 : i < [(1 : Int), 2, 3].length)
        (h2 : i < [(2 : Int), 2, 4].length),
        compare_objectives ([(1 : Int), 2, 3].get ⟨i, h1⟩) ([(2 : Int), 2, 4].get ⟨i, h2⟩)
          OptimizationType.minimization = false) :=
  compare_objectives_vector_all log.Level.info [(1 : Int), 2, 3] [2, 2, 4]
    OptimizationType.minimization (by decide) (by decide)

/-- The loop of the vector comparison from index `i <= INT_MAX` on, when both vectors have
`i + k` elements, more than `INT_MAX`, and every pair is better: the counter reaches
`INT_MAX` and its increment overflows. -/
theorem compare_objectives_loop_overflow {T : Type} [LT T]
    [DecidableRel (fun a b : T => a < b)] (v1 v2 : List T) (t : OptimizationType)
    (hall : ∀ (j : Nat) (h1 : j < v1.length) (h2 : j < v2.length),
      compare_objectives (v1.get ⟨j, h1⟩) (v2.get ⟨j, h2⟩) t = true) :
    ∀ (k i : Nat), i + k = v1.length → i + k = v2.length → (i : Int) ≤ INT_MAX →
      INT_MAX < ((i + k : Nat) : Int) →
      compare_objectives_loop v1 v2 t k i = Outcome.ub := by
  intro k
  induction k with
  | zero =>
    intro i _ _ h3 h4
    simp only [Nat.add_zero] at h4
    omega
  | succ k ih =>
    intro i h1 h2 h3 h4
    have hi1 : i < v1.length := by omega
    have hi2 : i < v2.length := by omega
    have hc := hall i hi1 hi2
    simp only [List.get_eq_getElem] at hc
    by_cases hi : (i : Int) = INT_MAX
    · simp [compare_objectives_loop, List.getElem?_eq_getElem hi1,
        List.getElem?_eq_getElem hi2, hc, hi]
    · have hstep := ih (i + 1) (by omega) (by omega) (by push_cast; omega)
        (by push_cast at h4 ⊢; omega)
      simp [compare_objectives_loop, List.getElem?_eq_getElem hi1,
        List.getElem?_eq_getElem hi2, hc, hi, hstep]

/-- On vectors of the same length, more than `INT_MAX`, with every pair better, the vector
`compare_objectives` has no defined result. -/
theorem compare_objectives_vector_long {T : Type} [LT T] [DecidableRel (fun a b : T => a < b)]
    (log_level : log.Level) (v1 v2 : List T) (t : OptimizationType)
    (hlen : v1.length = v2.length) (hlong : INT_MAX < (v1.length : Int))
    (hall : ∀ (j : Nat) (h1 : j < v1.length) (h2 : j < v2.length),
      compare_objectives (v1.get ⟨j, h1⟩) (v2.get ⟨j, h2⟩) t = true) :
    compare_objectives_vector log_level v1 v2 t = Outcome.ub := by
  have hloop := compare_objectives_loop_overflow v1 v2 t hall v1.length 0 (by omega)
    (by omega) (by decide) (by simpa using hlong)
  simp [compare_objectives_vector, ← hlen, hloop]

/-- C2: on two vectors of 2147483648 elements, all 0 against all 1, every element of the
first is better than its partner under minimization, so the claim gives true; but the loop
counter is an `int`, and its increment after index 2147483647 overflows: the call has no
defined result. -/
theorem compare_objectives_vector_overflow :
    (List.replicate 2147483648 (0 : Int)).length = (List.replicate 2147483648 (1 : Int)).length ∧
    (∀ (i : Nat) (h1 : i < (List.replicate 2147483648 (0 : Int)).length)
        (h2 : i < (List.replicate 2147483648 (1 : Int)).length),
      compare_objectives ((List.replicate 2147483648 (0 : Int)).get ⟨i, h1⟩)
        ((List.replicate 2147483648 (1 : Int)).get ⟨i, h2⟩)
        OptimizationType.minimization = true) ∧
    compare_objectives_vector log.Level.info (List.replicate 2147483648 (0 : Int))
        (List.replicate 2147483648 (1 : Int)) OptimizationType.minimization = Outcome.ub ∧
    compare_objectives_vector log.Level.info (List.replicate 2147483648 (0 : Int))
        (List.replicate 2147483648 (1 : Int)) OptimizationType.minimization
      ≠ Outcome.ret true := by
  have hlen : (List.replicate 2147483648 (0 : Int)).length
      = (List.replicate 2147483648 (1 : Int)).length := by
    rw [List.length_replicate, List.length_replicate]
  have hall : ∀ (i : Nat) (h1 : i < (List.replicate 2147483648 (0 : Int)).length)
      (h2 : i < (List.replicate 2147483648 (1 : Int)).length),
      compare_objectives ((List.replicate 2147483648 (0 : Int)).get ⟨i, h1⟩)
        ((List.replicate 2147483648 (1 : Int)).get ⟨i, h2⟩)
        OptimizationType.minimization = true := by
    intro i h1 h2
    rw [List.get_eq_getElem, List.get_eq_getElem, List.getElem_replicate,
      List.getElem_replicate]
    decide
  have hval := compare_objectives_vector_long log.Level.info
    (List.replicate 2147483648 (0 : Int)) (List.replicate 2147483648 (1 : Int))
    OptimizationType.minimization hlen
    (by rw [List.length_replicate]; decide) hall
  refine ⟨hlen, hall, hval, ?_⟩
  rw [hval]
  exact fun h => Outcome.noConfusion h

/-- C4: `log::error` ends the process with `exit(1)` under every log level; hence on two
vectors of different lengths the vector `compare_objectives` and `compare_vector` end the
process and return neither true nor false, whatever the log level is. -/
theorem size_mismatch_exits {T : Type} [LT T] [DecidableRel (fun a b : T => a < b)]
    [DecidableEq T] (log_level : log.Level) (v1 v2 : List T) (t : OptimizationType)
    (hlen : v1.length ≠ v2.length) :
    log.error log_level = Outcome.exit 1 ∧
    compare_objectives_vector log_level v1 v2 t = Outcome.exit 1 ∧
    compare_vector log_level v1 v2 = Outcome.exit 1 ∧
    (∀ b : Bool, compare_objectives_vector log_level v1 v2 t ≠ Outcome.ret b ∧
      compare_vector log_level v1 v2 ≠ Outcome.ret b) := by
  have h1 : compare_objectives_vector log_level v1 v2 t = Outcome.exit 1 := by
    simp [compare_objectives_vector, hlen]
  have h2 : compare_vector log_level v1 v2 = Outcome.exit 1 := by
    simp [compare_vector, hlen]
  refine ⟨log.error_eq_exit log_level, h1, h2, ?_⟩
  intro b
  rw [h1, h2]
  exact ⟨by simp, by simp⟩

/-- C4, at a concrete input: `[1, 2, 3]` against `[2, 2]` at the log level `error`. -/
theorem size_mismatch_exits_witness :
    log.error log.Level.error = Outcome.exit 1 ∧
    compare_objectives_vector log.Level.error [(1 : Int), 2, 3] [2, 2]
      OptimizationType.maximization = Outcome.exit 1 ∧
    compare_vector log.Level.error [(1 : Int), 2, 3] [2, 2] = Outcome.exit 1 ∧
    (∀ b : Bool, compare_objectives_vector log.Level.error [(1 : Int), 2, 3] [2, 2]
        OptimizationType.maximization ≠ Outcome.ret b ∧
      compare_vector log.Level.error [(1 : Int), 2, 3] [2, 2] ≠ Outcome.ret b) :=
  size_mismatch_exits log.Level.error [(1 : Int), 2, 3] [2, 2]
    OptimizationType.maximization (by decide)

end common
end ioh

namespace ioh
namespace trigger

open common

/-! ## The trigger `OnImprovement` -/

/-- Being better is transitive in a linear order. -/
theorem compare_objectives_trans {T : Type} [LinearOrder T] (a b c : T) (d : OptimizationType)
    (hab : compare_objectives a b d = true) (hbc : compare_objectives b c d = true) :
    compare_objectives a c d = true := by
  cases d <;> simp [compare_objectives] at hab hbc ⊢
  · exact lt_trans hab hbc
  · exact lt_trans hbc hab

/-- What is better than `b` is better than anything that is not better than `b`. -/
theorem compare_objectives_of_not_better {T : Type} [LinearOrder T] (a y b : T)
    (d : OptimizationType) (hab : compare_objectives a b d = true)
    (hyb : ¬ compare_objectives y b d = true) : compare_objectives a y d = true := by
  cases d <;> simp [compare_objectives] at hab hyb ⊢
  · exact lt_of_lt_of_le hab hyb
  · exact lt_of_le_of_lt hyb hab

/-- The number of answers is the number of calls. -/
theorem OnImprovement.fire_all_length {T : Type} [LT T] [DecidableRel (fun a b : T => a < b)]
    (infos : List (logger.Info T)) :
    ∀ self : OnImprovement T, (self.fire_all infos).length = infos.length := by
  induction infos with
  | nil => intro self; rfl
  | cons info infos ih => intro self; simp [OnImprovement.fire_all, ih]

/-- From a trigger holding `best`, the call at position `k` fires exactly when its value is
better than `best` and than the value of every earlier call. -/
theorem OnImprovement.fire_all_some {T : Type} [LinearOrder T] (d : OptimizationType)
    (infos : List (logger.Info T)) :
    ∀ (best : T) (k : Nat) (info : logger.Info T), infos[k]? = some info →
      (((OnImprovement.mk (some best) d).fire_all infos)[k]? = some true ↔
        compare_objectives info.transformed_y best d = true ∧
        ∀ (j : Nat) (prev : logger.Info T), j < k → infos[j]? = some prev →
          compare_objectives info.transformed_y prev.transformed_y d = true) := by
  induction infos with
  | nil => intro best k info h; simp at h
  | cons first rest ih =>
    intro best k info hk
    by_cases hfire : compare_objectives first.transformed_y best d = true
    · cases k with
      | zero =>
        simp only [List.getElem?_cons_zero, Option.some.injEq] at hk
        subst hk
        simp [OnImprovement.fire_all, OnImprovement.fire, hfire]
      | succ k =>
        simp only [List.getElem?_cons_succ] at hk
        simp only [OnImprovement.fire_all, OnImprovement.fire, hfire, if_true,
          List.getElem?_cons_succ]
        rw [ih first.transformed_y k info hk]
        constructor
        · rintro ⟨h0, hrest⟩
          refine ⟨compare_objectives_trans _ _ _ d h0 hfire, ?_⟩
          intro j prev hj hprev
          cases j with
          | zero =>
            simp only [List.getElem?_cons_zero, Option.some.injEq] at hprev
            subst hprev
            exact h0
          | succ j =>
            simp only [List.getElem?_cons_succ] at hprev
            exact hrest j prev (by omega) hprev
        · rintro ⟨_, hall⟩
          refine ⟨hall 0 first (by omega) (by simp), ?_⟩
          intro j prev hj hprev
          exact hall (j + 1) prev (by omega) (by simpa using hprev)
    · cases k with
      | zero =>
        simp only [List.getElem?_cons_zero, Option.some.injEq] at hk
        subst hk
        simp [OnImprovement.fire_all, OnImprovement.fire, hfire]
      | succ k =>
        simp only [List.getElem?_cons_succ] at hk
        simp only [OnImprovement.fire_all, OnImprovement.fire, hfire, Bool.false_eq_true,
          if_false, List.getElem?_cons_succ]
        rw [ih best k info hk]
        constructor
        · rintro ⟨hb, hrest⟩
          refine ⟨hb, ?_⟩
          intro j prev hj hprev
          cases j with
          | zero =>
            simp only [List.getElem?_cons_zero, Option.some.injEq] at hprev
            subst hprev
            exact compare_objectives_of_not_better _ _ _ d hb hfire
          | succ j =>
            simp only [List.getElem?_cons_succ] at hprev
            exact hrest j prev (by omega) hprev
        · rintro ⟨hb, hall⟩
          refine ⟨hb, ?_⟩
          intro j prev hj hprev
          exact hall (j + 1) prev (by omega) (by simpa using hprev)

/-- C3: a trigger whose `best` starts unset answers true, false, true, false, true under
minimization on calls with `transformed_y` 5, 5, 3, 3, 1, that is, it fires at the
positions 0, 2 and 4; in general it gives one answer per call, fires on the first call, and
fires at a later position exactly when the value there is strictly better, under the
direction, than the value of every earlier call. -/
theorem on_improvement_fires {T : Type} [LinearOrder T] (d : OptimizationType)
    (infos : List (logger.Info T)) (calls : List (logger.Info Int)) :
    (calls.map (fun info => info.transformed_y) = [5, 5, 3, 3, 1] →
      (OnImprovement.mk none OptimizationType.minimization).fire_all calls
        = [true, false, true, false, true]) ∧
    ((OnImprovement.mk none d).fire_all infos).length = infos.length ∧
    (infos ≠ [] → ((OnImprovement.mk none d).fire_all infos)[0]? = some true) ∧
    (∀ (k : Nat) (info : logger.Info T), infos[k]? = some info →
      (((OnImprovement.mk none d).fire_all infos)[k]? = some true ↔
        ∀ (j : Nat) (prev : logger.Info T), j < k → infos[j]? = some prev →
          compare_objectives info.transformed_y prev.transformed_y d = true)) := by
  refine ⟨?_, OnImprovement.fire_all_length infos _, ?_, ?_⟩
  · intro h
    rcases calls with _ | ⟨c0, _ | ⟨c1, _ | ⟨c2, _ | ⟨c3, _ | ⟨c4, _ | ⟨c5, rest⟩⟩⟩⟩⟩⟩ <;>
      simp at h
    obtain ⟨h0, h1, h2, h3, h4⟩ := h
    simp [OnImprovement.fire_all, OnImprovement.fire, compare_objectives, h0, h1, h2, h3, h4]
  · intro hne
    cases infos with
    | nil => exact absurd rfl hne
    | cons first rest => simp [OnImprovement.fire_all, OnImprovement.fire]
  · intro k info hk
    cases infos with
    | nil => simp at hk
    | cons first rest =>
      cases k with
      | zero => simp [OnImprovement.fire_all, OnImprovement.fire]
      | succ k =>
        simp only [List.getElem?_cons_succ] at hk
        simp only [OnImprovement.fire_all, OnImprovement.fire, List.getElem?_cons_succ]
        rw [OnImprovement.fire_all_some d rest first.transformed_y k info hk]
        constructor
        · rintro ⟨h0, hrest⟩ j prev hj hprev
          cases j with
          | zero =>
            simp only [List.getElem?_cons_zero, Option.some.injEq] at hprev
            subst hprev
            exact h0
          | succ j =>
            simp only [List.getElem?_cons_succ] at hprev
            exact hrest j prev (by omega) hprev
        · intro hall
          refine ⟨hall 0 first (by omega) (by simp), ?_⟩
          intro j prev hj hprev
          exact hall (j + 1) prev (by omega) (by simpa using hprev)

end trigger
end ioh

namespace ioh
namespace common

/-! ## Decimal digits -/

/-- The ten digit characters: each is a decimal digit and has its own value. -/
theorem digitChar_spec : ∀ k : Nat, k < 10 →
    (Nat.digitChar k).isDigit = true ∧ digit_value (Nat.digitChar k) = k := by
  decide

/-- A decimal digit is none of the separators, signs and blanks the parser looks for. -/
theorem isDigit_ne {c : Char} (h : c.isDigit = true) :
    c ≠ '-' ∧ c ≠ ',' ∧ c ≠ '+' ∧ c ≠ blank ∧ c ≠ carriage_return ∧ isspace c = false := by
  refine ⟨?_, ?_, ?_, ?_, ?_, ?_⟩
  · rintro rfl; exact absurd h (by decide)
  · rintro rfl; exact absurd h (by decide)
  · rintro rfl; exact absurd h (by decide)
  · rintro rfl; exact absurd h (by decide)
  · rintro rfl; exact absurd h (by decide)
  · simp only [Char.isDigit, Bool.and_eq_true, decide_eq_true_eq] at h
    have h1 : 48 ≤ c.toNat := h.1
    simp only [isspace, Bool.or_eq_false_iff, beq_eq_false_iff_ne, ne_eq,
      Bool.and_eq_false_imp, decide_eq_true_eq, decide_eq_false_iff_not]
    constructor
    · omega
    · intro _; omega

/-- The digits already produced stay behind the ones `toDigitsCore` adds. -/
theorem toDigitsCore_append (fuel : Nat) :
    ∀ (n : Nat) (ds : List Char),
      Nat.toDigitsCore 10 fuel n ds = Nat.toDigitsCore 10 fuel n [] ++ ds := by
  induction fuel with
  | zero => intro n ds; simp [Nat.toDigitsCore]
  | succ fuel ih =>
    intro n ds
    simp only [Nat.toDigitsCore]
    by_cases h : n / 10 = 0
    · simp [h]
    · simp only [h, if_false]
      rw [ih (n / 10) (Nat.digitChar (n % 10) :: ds), ih (n / 10) [Nat.digitChar (n % 10)]]
      simp

/-- With enough fuel `toDigitsCore` writes a non-empty run of decimal digits that denotes
the number. -/
theorem toDigitsCore_spec (fuel : Nat) :
    ∀ n : Nat, n < fuel →
      Nat.toDigitsCore 10 fuel n [] ≠ [] ∧
      (∀ c ∈ Nat.toDigitsCore 10 fuel n [], c.isDigit = true) ∧
      digits_value (Nat.toDigitsCore 10 fuel n []) = n := by
  induction fuel with
  | zero => intro n h; omega
  | succ fuel ih =>
    intro n hn
    have hd := digitChar_spec (n % 10) (Nat.mod_lt n (by decide))
    simp only [Nat.toDigitsCore]
    by_cases h : n / 10 = 0
    · simp only [h, if_true]
      refine ⟨by simp, ?_, ?_⟩
      · intro c hc
        simp only [List.mem_singleton] at hc
        rw [hc]; exact hd.1
      · simp only [digits_value, List.foldl_cons, List.foldl_nil, hd.2]
        omega
    · simp only [h, if_false]
      rw [toDigitsCore_append]
      obtain ⟨_, h2, h3⟩ := ih (n / 10) (by omega)
      refine ⟨by simp, ?_, ?_⟩
      · intro c hc
        rcases List.mem_append.mp hc with hc | hc
        · exact h2 c hc
        · simp only [List.mem_singleton] at hc
          rw [hc]; exact hd.1
      · simp only [digits_value] at h3 ⊢
        simp only [List.foldl_append, List.foldl_cons, List.foldl_nil, h3, hd.2]
        omega

/-- The decimal rendering of a natural number: a non-empty run of digits denoting it. -/
theorem toDigits_spec (n : Nat) :
    Nat.toDigits 10 n ≠ [] ∧ (∀ c ∈ Nat.toDigits 10 n, c.isDigit = true) ∧
      digits_value (Nat.toDigits 10 n) = n :=
  toDigitsCore_spec (n + 1) n (Nat.lt_succ_self n)

/-- On a non-empty run of digits that denotes an `int`, `std::stoi` returns that `int`. -/
theorem stoi_digits (ds : List Char) (hne : ds ≠ []) (hd : ∀ c ∈ ds, c.isDigit = true)
    (hmax : (digits_value ds : Int) ≤ INT_MAX) :
    stoi ds = Outcome.ret (digits_value ds : Int) := by
  cases ds with
  | nil => exact absurd rfl hne
  | cons c t =>
    have hc := isDigit_ne (hd c (List.mem_cons_self c t))
    have htake : List.takeWhile Char.isDigit (c :: t) = c :: t :=
      List.takeWhile_eq_self_iff.mpr hd
    have hmin : ¬ ((digits_value (c :: t) : Int) < INT_MIN) := by
      have : (0 : Int) ≤ (digits_value (c :: t) : Int) := Int.ofNat_nonneg _
      simp only [INT_MIN]; omega
    have hmax2 : ¬ (INT_MAX < (digits_value (c :: t) : Int)) := by omega
    have h1 := hc.1
    have h2 := hc.2.2.1
    have h3 := hc.2.2.2.2.2
    simp only [stoi, List.dropWhile_cons, h3, h1, h2, if_false, htake, Bool.false_eq_true,
      List.isEmpty_cons, hmin, hmax2, or_self]

end common
end ioh

namespace ioh
namespace common

/-! ## Stripping, checking and splitting the input -/

/-- Dropping a prefix by a predicate that no element satisfies drops nothing. -/
theorem dropWhile_none {p : Char → Bool} (s : List Char) (h : ∀ c ∈ s, p c = false) :
    s.dropWhile p = s := by
  cases s with
  | nil => rfl
  | cons c t => simp [List.dropWhile_cons, h c (List.mem_cons_self c t)]

/-- Dropping a suffix by a predicate that no element satisfies drops nothing. -/
theorem rdropWhile_none {p : Char → Bool} (s : List Char) (h : ∀ c ∈ s, p c = false) :
    s.rdropWhile p = s := by
  unfold List.rdropWhile
  rw [dropWhile_none s.reverse (fun c hc => h c (List.mem_reverse.mp hc)), List.reverse_reverse]

/-- A string without blanks and carriage returns is left as it is. -/
theorem strip_eq_self (s : List Char) (h : ∀ c ∈ s, c ≠ blank ∧ c ≠ carriage_return) :
    strip s = s := by
  unfold strip
  split
  · rfl
  · have hb : ∀ c ∈ s, (c == blank) = false := fun c hc => by simpa using (h c hc).1
    have hr : ∀ c ∈ s, (c == carriage_return) = false := fun c hc => by simpa using (h c hc).2
    simp only
    rw [dropWhile_none s hb, rdropWhile_none s hr, rdropWhile_none s hb]

/-- The character check passes a string of commas, dashes and digits. -/
theorem check_characters_ok (log_level : log.Level) (s : List Char)
    (h : ∀ c ∈ s, c = ',' ∨ c = '-' ∨ c.isDigit = true) :
    check_characters log_level s = Outcome.ret () := by
  induction s with
  | nil => rfl
  | cons c t ih =>
    have ht := ih (fun x hx => h x (List.mem_cons_of_mem c hx))
    have hc : ¬ (c ≠ ',' ∧ c ≠ '-' ∧ ¬ c.isDigit = true) := by
      rcases h c (List.mem_cons_self c t) with h1 | h1 | h1 <;> simp [h1]
    simp only [check_characters, if_neg hc]
    simp [ht]

/-- What a successful `getline` leaves in the stream is shorter than what it found. -/
theorem getline_rest_length (delim : Char) (raw tmp rest : List Char)
    (h : getline delim raw = some (tmp, rest)) : rest.length < raw.length := by
  unfold getline at h
  split at h
  · simp at h
  · rename_i hne
    simp only [Option.some.injEq, Prod.mk.injEq] at h
    rw [← h.2]
    have h1 : (List.dropWhile (fun c => c != delim) raw).length ≤ raw.length :=
      (List.dropWhile_sublist _).length_le
    have h2 : 0 < raw.length := by
      cases raw with
      | nil => simp at hne
      | cons c t => simp
    simp only [List.length_drop]
    omega

/-- The fields read do not depend on the bound, once it exceeds the length of the stream. -/
theorem getline_loop_fuel (delim : Char) (fuel1 : Nat) :
    ∀ (fuel2 : Nat) (raw : List Char), raw.length < fuel1 → raw.length < fuel2 →
      getline_loop delim fuel1 raw = getline_loop delim fuel2 raw := by
  induction fuel1 with
  | zero => intro fuel2 raw h; omega
  | succ fuel1 ih =>
    intro fuel2 raw h1 h2
    cases fuel2 with
    | zero => omega
    | succ fuel2 =>
      simp only [getline_loop]
      cases hg : getline delim raw with
      | none => rfl
      | some r =>
        obtain ⟨tmp, rest⟩ := r
        have hlt := getline_rest_length delim raw tmp rest hg
        simp only
        rw [ih fuel2 rest (by omega) (by omega)]

/-- A field without the delimiter, followed by the delimiter, is read as one field. -/
theorem getlines_cons (delim : Char) (a rest : List Char) (ha : delim ∉ a) :
    getlines delim (a ++ delim :: rest) = a :: getlines delim rest := by
  have hp : ∀ c ∈ a, (c != delim) = true := by
    intro c hc
    simp only [bne_iff_ne, ne_eq]
    rintro rfl
    exact ha hc
  have hg : getline delim (a ++ delim :: rest) = some (a, rest) := by
    have hne : (a ++ delim :: rest).isEmpty = false := by
      cases a <;> simp
    simp [getline, hne, List.takeWhile_append_of_pos hp, List.dropWhile_append_of_pos hp,
      List.takeWhile_cons, List.dropWhile_cons]
  have e1 : getlines delim (a ++ delim :: rest)
      = getline_loop delim ((a ++ delim :: rest).length + 1) (a ++ delim :: rest) := rfl
  rw [e1, getline_loop, hg]
  simp only
  rw [getline_loop_fuel delim _ (rest.length + 1) rest (by simp; omega) (by omega)]
  rfl

/-- A non-empty string without the delimiter is read as one field. -/
theorem getlines_single (delim : Char) (a : List Char) (hne : a ≠ []) (ha : delim ∉ a) :
    getlines delim a = [a] := by
  have hp : ∀ c ∈ a, (c != delim) = true := by
    intro c hc
    simp only [bne_iff_ne, ne_eq]
    rintro rfl
    exact ha hc
  have hg : getline delim a = some (a, []) := by
    have hne2 : a.isEmpty = false := by
      cases a with
      | nil => exact absurd rfl hne
      | cons c t => rfl
    simp [getline, hne2, List.takeWhile_eq_self_iff.mpr hp, List.dropWhile_eq_nil_iff.mpr hp]
  unfold getlines
  simp only [getline_loop, hg]
  cases h : a.length with
  | zero => rfl
  | succ k => rfl

/-- Fields without a dash, the last of them non-empty, are read back from their join. -/
theorem getlines_dash_joined (first : List Char) (fields : List (List Char)) :
    ∀ (last : List Char), (∀ f ∈ first :: fields, '-' ∉ f) → '-' ∉ last → last ≠ [] →
      getlines '-' (dash_joined (first :: fields ++ [last])) = first :: fields ++ [last] := by
  induction fields generalizing first with
  | nil =>
    intro last hf hl hne
    have h1 : dash_joined ([first] ++ [last]) = first ++ '-' :: last := by
      simp [dash_joined, List.intercalate]
    simp only [List.cons_append, List.nil_append] at h1 ⊢
    rw [h1, getlines_cons '-' first last (hf first (List.mem_cons_self _ _)),
      getlines_single '-' last hne hl]
  | cons x xs ih =>
    intro last hf hl hne
    have h1 : dash_joined (first :: (x :: xs) ++ [last])
        = first ++ '-' :: dash_joined (x :: xs ++ [last]) := by
      simp [dash_joined, List.intercalate]
    rw [h1, getlines_cons '-' first _ (hf first (List.mem_cons_self _ _)),
      ih x last (fun f hm => hf f (List.mem_cons_of_mem _ hm)) hl hne]
    simp

/-- The ascending loop, when the bound allows every increment it needs: it appends
`value, value + 1, ..., last` to the result. -/
theorem push_ascending_spec (k : Nat) :
    ∀ (value last : Int) (result : List Int), last < value + (k : Int) →
      push_ascending k value last result = Outcome.ret (result ++ int_range value last) := by
  induction k with
  | zero =>
    intro value last result h
    have h1 : ¬ value ≤ last := by omega
    have h2 : (last + 1 - value).toNat = 0 := by omega
    simp [push_ascending, h1, int_range, h2]
  | succ k ih =>
    intro value last result h
    by_cases h1 : value ≤ last
    · have h2 : (last + 1 - value).toNat = (last + 1 - (value + 1)).toNat + 1 := by omega
      simp only [push_ascending, h1, if_true]
      rw [ih (value + 1) last (result ++ [value]) (by push_cast at h; omega)]
      simp only [int_range, h2, List.range_succ_eq_map, List.map_cons, List.map_map,
        List.append_assoc, List.singleton_append, Nat.cast_zero, add_zero]
      congr 3
      apply List.map_congr_left
      intro j _
      simp only [Function.comp, Nat.cast_succ]
      omega
    · have h2 : (last + 1 - value).toNat = 0 := by omega
      simp [push_ascending, h1, int_range, h2]

end common
end ioh

namespace ioh
namespace common

/-! ## Fields of the configuration string -/

/-- A non-negative `int` is written as its decimal digits. -/
theorem to_string_nonneg (v : Int) (h : 0 ≤ v) : to_string v = Nat.toDigits 10 v.toNat := by
  have h1 : ¬ v < 0 := by omega
  simp [to_string, h1]

/-- The rendering of a non-negative `int` below `INT_MAX`: a non-empty run of digits, free
of dashes, which `std::stoi` reads back. -/
theorem to_string_spec (v : Int) (h0 : 0 ≤ v) (hmax : v ≤ INT_MAX) :
    to_string v ≠ [] ∧ (∀ c ∈ to_string v, c.isDigit = true) ∧ '-' ∉ to_string v ∧
      stoi (to_string v) = Outcome.ret v := by
  rw [to_string_nonneg v h0]
  obtain ⟨h1, h2, h3⟩ := toDigits_spec v.toNat
  have hv : ((digits_value (Nat.toDigits 10 v.toNat) : Nat) : Int) = v := by
    rw [h3]; omega
  refine ⟨h1, h2, fun hm => (isDigit_ne (h2 _ hm)).1 rfl, ?_⟩
  rw [stoi_digits _ h1 h2 (by rw [hv]; exact hmax), hv]

/-- A character of a join of fields is a dash or a character of a field. -/
theorem mem_dash_joined (c : Char) (fields : List (List Char)) (h : c ∈ dash_joined fields) :
    c = '-' ∨ ∃ f ∈ fields, c ∈ f := by
  induction fields with
  | nil => simp [dash_joined, List.intercalate] at h
  | cons x xs ih =>
    cases xs with
    | nil =>
      simp [dash_joined, List.intercalate] at h
      exact Or.inr ⟨x, List.mem_cons_self _ _, h⟩
    | cons y ys =>
      have h1 : dash_joined (x :: y :: ys) = x ++ '-' :: dash_joined (y :: ys) := by
        simp [dash_joined, List.intercalate]
      rw [h1] at h
      rcases List.mem_append.mp h with h | h
      · exact Or.inr ⟨x, List.mem_cons_self _ _, h⟩
      · rcases List.mem_cons.mp h with h | h
        · exact Or.inl h
        · rcases ih h with h | ⟨f, hf, hc⟩
          · exact Or.inl h
          · exact Or.inr ⟨f, List.mem_cons_of_mem _ hf, hc⟩

/-- A join of at least two fields starts with its first field and ends with its last. -/
theorem dash_joined_ends (first : List Char) (fields : List (List Char)) :
    ∀ last : List Char, ∃ mid : List Char,
      dash_joined (first :: fields ++ [last]) = first ++ '-' :: (mid ++ last) := by
  induction fields generalizing first with
  | nil =>
    intro last
    exact ⟨[], by simp [dash_joined, List.intercalate]⟩
  | cons x xs ih =>
    intro last
    obtain ⟨mid, hmid⟩ := ih x last
    refine ⟨x ++ '-' :: mid, ?_⟩
    have h1 : dash_joined (first :: (x :: xs) ++ [last])
        = first ++ '-' :: dash_joined (x :: xs ++ [last]) := by
      simp [dash_joined, List.intercalate]
    rw [h1, hmid]
    simp

/-- The branch for `n-m` and `n-x-m`: a field that neither starts nor ends with a dash,
whose first and last dash-separated parts read as `first <= last` within the bounds,
appends `first, ..., last`, provided `last` is below `INT_MAX`. -/
theorem parse_field_range (log_level : log.Level) (min max : Int) (n i : Nat)
    (si p q : List Char) (c : Char) (first last : Int) (result : List Int)
    (hhead : si.headD (Char.ofNat 0) ≠ '-') (hlast : si.getLast? = some c) (hc : c ≠ '-')
    (hp : (getlines '-' si).head? = some p) (hq : (getlines '-' si).getLast? = some q)
    (hsp : stoi p = Outcome.ret first) (hsq : stoi q = Outcome.ret last)
    (h1 : min ≤ first) (h2 : first ≤ last) (h3 : last ≤ max) (h4 : last < INT_MAX) :
    parse_field log_level min max n i si result
      = Outcome.ret (result ++ int_range first last) := by
  have e1 : ¬ first > last := by omega
  have e2 : ¬ first < min := by omega
  have e3 : ¬ last > max := by omega
  have e4 : last < first + ((INT_MAX - first).toNat : Int) := by omega
  simp only [parse_field, hhead, if_false, hlast, hc, hp, hq, hsp, hsq, Outcome.ret_bind,
    e1, e2, e3, Outcome.pure_eq]
  exact push_ascending_spec _ first last result e4

/-- The branch for `-m`: on the first field, a dash followed by a dash-free string that
reads as `last >= min`, the result is that of the ascending loop from `min`. -/
theorem parse_field_upto_eq (log_level : log.Level) (min max : Int) (n : Nat)
    (q : List Char) (last : Int) (result : List Int)
    (hq : '-' ∉ q) (hsq : stoi q = Outcome.ret last) (h1 : min ≤ last) :
    parse_field log_level min max n 0 ('-' :: q) result
      = push_ascending (INT_MAX - min).toNat min last result := by
  have e2 : ¬ last < min := by omega
  simp only [parse_field, List.headD_cons, if_true, ne_eq, not_true_eq_false, if_false,
    List.drop_succ_cons, List.drop_zero, hq, hsq, Outcome.ret_bind, e2, Outcome.pure_eq]

/-- The branch for `-m` appends `min, ..., last`, provided `last` is below `INT_MAX`. -/
theorem parse_field_upto (log_level : log.Level) (min max : Int) (n : Nat)
    (q : List Char) (last : Int) (result : List Int)
    (hq : '-' ∉ q) (hsq : stoi q = Outcome.ret last)
    (h1 : min ≤ last) (h4 : last < INT_MAX) :
    parse_field log_level min max n 0 ('-' :: q) result
      = Outcome.ret (result ++ int_range min last) := by
  rw [parse_field_upto_eq log_level min max n q last result hq hsq h1]
  exact push_ascending_spec _ min last result (by omega)

/-- A configuration string that is one field without blanks, carriage returns and commas
is parsed as that field. -/
theorem parse_single_field (log_level : log.Level) (min max : Int) (input : List Char)
    (hne : input ≠ []) (hchars : ∀ c ∈ input, c = '-' ∨ c.isDigit = true) :
    get_int_vector_parse_string log_level input min max
      = parse_field log_level min max 1 0 input [] := by
  have hstrip : strip input = input := by
    apply strip_eq_self
    intro c hc
    rcases hchars c hc with h | h
    · subst h; exact ⟨by decide, by decide⟩
    · exact ⟨(isDigit_ne h).2.2.2.1, (isDigit_ne h).2.2.2.2.1⟩
  have hcheck : check_characters log_level input = Outcome.ret () :=
    check_characters_ok log_level input (fun c hc => Or.inr (hchars c hc))
  have hcomma : ',' ∉ input := by
    intro hc
    rcases hchars _ hc with h | h
    · exact absurd h (by decide)
    · exact (isDigit_ne h).2.1 rfl
  have hsplit : getlines ',' input = [input] := getlines_single ',' input hne hcomma
  simp only [get_int_vector_parse_string, hstrip, hcheck, Outcome.ret_bind, hsplit,
    List.length_singleton, parse_fields]
  cases parse_field log_level min max 1 0 input [] <;> rfl

end common
end ioh

namespace ioh
namespace common

/-! ## Ranges read from a configuration string -/

/-- The list `[first, ..., last]` has `last - first + 1` elements when `first <= last`. -/
theorem int_range_length (first last : Int) (h : first ≤ last) :
    ((int_range first last).length : Int) = last - first + 1 := by
  simp only [int_range, List.length_map, List.length_range]
  omega

/-- A chain `n-x-...-m` of decimal numbers, with `min <= n <= m <= max`, `0 <= n` and
`m` below `INT_MAX`, is parsed to `[n, ..., m]`, whatever the numbers in between are. -/
theorem parse_chain (log_level : log.Level) (min max n m : Int) (mid : List (List Char))
    (hmid : ∀ f ∈ mid, ∀ c ∈ f, c.isDigit = true)
    (h0 : 0 ≤ n) (h1 : min ≤ n) (h2 : n ≤ m) (h3 : m ≤ max) (h4 : m < INT_MAX) :
    get_int_vector_parse_string log_level
        (dash_joined (to_string n :: mid ++ [to_string m])) min max
      = Outcome.ret (int_range n m) := by
  obtain ⟨hn1, hn2, hn3, hn4⟩ := to_string_spec n h0 (by omega)
  obtain ⟨hm1, hm2, hm3, hm4⟩ := to_string_spec m (by omega) (by omega)
  obtain ⟨rest, hends⟩ := dash_joined_ends (to_string n) mid (to_string m)
  have hfields : ∀ f ∈ to_string n :: mid ++ [to_string m], ∀ c ∈ f, c.isDigit = true := by
    intro f hf c hc
    simp only [List.cons_append, List.mem_cons, List.mem_append, List.mem_singleton,
      List.not_mem_nil, or_false] at hf
    rcases hf with hf | hf | hf
    · subst hf; exact hn2 c hc
    · exact hmid f hf c hc
    · subst hf; exact hm2 c hc
  have hchars : ∀ c ∈ dash_joined (to_string n :: mid ++ [to_string m]),
      c = '-' ∨ c.isDigit = true := by
    intro c hc
    rcases mem_dash_joined c _ hc with h | ⟨f, hf, hcf⟩
    · exact Or.inl h
    · exact Or.inr (hfields f hf c hcf)
  have hne : dash_joined (to_string n :: mid ++ [to_string m]) ≠ [] := by
    rw [hends]
    cases to_string n <;> simp
  have hsplit := getlines_dash_joined (to_string n) mid (to_string m)
    (fun f hf hd => (isDigit_ne (hfields f (by
      simp only [List.cons_append, List.mem_cons, List.mem_append] at hf ⊢
      rcases hf with hf | hf
      · exact Or.inl hf
      · exact Or.inr (Or.inl hf)) _ hd)).1 rfl) hm3 hm1
  rw [parse_single_field log_level min max _ hne hchars]
  have hlastc : ((to_string m).getLast hm1).isDigit = true :=
    hm2 _ (List.getLast_mem hm1)
  have hres := parse_field_range log_level min max 1 0
    (dash_joined (to_string n :: mid ++ [to_string m])) (to_string n) (to_string m)
    ((to_string m).getLast hm1) n m []
    (by
      rw [hends]
      cases hs : to_string n with
      | nil => exact absurd hs hn1
      | cons d t =>
        have hd : d.isDigit = true := hn2 d (by rw [hs]; exact List.mem_cons_self d t)
        simpa using (isDigit_ne hd).1)
    (by
      rw [hends]
      have e : to_string n ++ '-' :: (rest ++ to_string m)
          = (to_string n ++ '-' :: rest) ++ to_string m := by simp
      rw [e, List.getLast?_append_of_ne_nil _ hm1, List.getLast?_eq_getLast _ hm1])
    (isDigit_ne hlastc).1
    (by rw [hsplit]; rfl)
    (by
      rw [hsplit]
      have e : to_string n :: mid ++ [to_string m] = (to_string n :: mid) ++ [to_string m] := rfl
      rw [e, List.getLast?_append_of_ne_nil _ (by simp)]
      rfl)
    hn4 hm4 h1 h2 h3 h4
  simpa using hres

end common
end ioh

namespace ioh
namespace common

/-- The ascending loop overflows when `last` is out of the reach of the increments left. -/
theorem push_ascending_overflow (k : Nat) :
    ∀ (value last : Int) (result : List Int), value + (k : Int) ≤ last →
      push_ascending k value last result = Outcome.ub := by
  induction k with
  | zero =>
    intro value last result h
    have h1 : value ≤ last := by omega
    simp [push_ascending, h1]
  | succ k ih =>
    intro value last result h
    have h1 : value ≤ last := by omega
    simp only [push_ascending, h1, if_true]
    exact ih (value + 1) last (result ++ [value]) (by push_cast at h; omega)

/-- The descending loop does nothing when it starts above `last`. -/
theorem push_descending_skip (k : Nat) (value last : Int) (result : List Int)
    (h : last < value) : push_descending k value last result = Outcome.ret result := by
  have h1 : ¬ value ≤ last := by omega
  cases k <;> simp [push_descending, h1]

/-- The descending loop never ends properly when it starts at or below `last`: `value`
only moves away from `last`, until the decrement overflows. -/
theorem push_descending_overflow (k : Nat) :
    ∀ (value last : Int) (result : List Int), value ≤ last →
      push_descending k value last result = Outcome.ub := by
  induction k with
  | zero =>
    intro value last result h
    simp [push_descending, h]
  | succ k ih =>
    intro value last result h
    simp only [push_descending, h, if_true]
    exact ih (value - 1) last (result ++ [value]) (by omega)

/-- The branch for `n-`: on the only field, a dash-free string that reads as
`first <= max` followed by a dash, the result is that of the descending loop from `max`. -/
theorem parse_field_from (log_level : log.Level) (min max : Int) (p : List Char)
    (first : Int) (result : List Int) (hd : ∀ c ∈ p, c.isDigit = true) (hne : p ≠ [])
    (hsp : stoi p = Outcome.ret first) (h : first ≤ max) :
    parse_field log_level min max 1 0 (p ++ ['-']) result
      = push_descending (max - INT_MIN).toNat max first result := by
  have hdash : '-' ∉ p := fun hm => (isDigit_ne (hd _ hm)).1 rfl
  have e1 : ¬ first > max := by omega
  cases hp : p with
  | nil => exact absurd hp hne
  | cons d t =>
    have hd0 : d ≠ '-' := (isDigit_ne (hd d (by rw [hp]; exact List.mem_cons_self d t))).1
    have hlast : (d :: t ++ ['-']).getLast? = some '-' := by
      rw [List.getLast?_append_of_ne_nil _ (by simp)]
      rfl
    have htake : List.take ((d :: t ++ ['-']).length - 1) (d :: t ++ ['-']) = d :: t := by
      have : (d :: t ++ ['-']).length - 1 = (d :: t).length := by simp
      rw [this, List.take_left']
      rfl
    rw [hp] at hdash hsp
    simp only [parse_field]
    rw [hlast, htake]
    simp [hd0, hdash, hsp, e1]

end common
end ioh

namespace ioh
namespace common

/-- The string `-m` with `m = INT_MAX`: whatever the bounds `min <= INT_MAX` and `max`, the
loop from `min` ends by incrementing its counter past `INT_MAX`. -/
theorem parse_upto_at_int_max (log_level : log.Level) (min max : Int) (h : min ≤ INT_MAX) :
    get_int_vector_parse_string log_level ('-' :: to_string INT_MAX) min max = Outcome.ub := by
  obtain ⟨_, hn2, hn3, hn4⟩ := to_string_spec INT_MAX (by decide) (le_refl _)
  have hchars : ∀ c ∈ '-' :: to_string INT_MAX, c = '-' ∨ c.isDigit = true := by
    intro c hc
    rcases List.mem_cons.mp hc with hc | hc
    · exact Or.inl hc
    · exact Or.inr (hn2 c hc)
  rw [parse_single_field log_level min max _ (by simp) hchars,
    parse_field_upto_eq log_level min max 1 (to_string INT_MAX) INT_MAX [] hn3 hn4 h]
  exact push_ascending_overflow _ min INT_MAX [] (by omega)

/-! ## The formats of `get_int_vector_parse_string` -/

/-- C5: the format `n-m` is documented to give `[n, m]`, but on `2147483647-2147483647`
with bounds 0 and 2147483647 the loop pushes 2147483647 and then increments its `int`
counter past `INT_MAX`, so the call has no defined result instead of returning
`[2147483647]`. -/
theorem parse_range_overflow :
    get_int_vector_parse_string log.Level.info
        (to_string 2147483647 ++ '-' :: to_string 2147483647) 0 2147483647 = Outcome.ub ∧
    get_int_vector_parse_string log.Level.info
        (to_string 2147483647 ++ '-' :: to_string 2147483647) 0 2147483647
      ≠ Outcome.ret (int_range 2147483647 2147483647) := by
  decide

/-- Below `INT_MAX` the format `n-m` works as documented: for `min <= n <= m <= max` with
`0 <= n` and `m < INT_MAX`, the string `n-m` is parsed to exactly `[n, n + 1, ..., m]`, a
list of `m - n + 1` elements, under every log level. -/
theorem parse_range (log_level : log.Level) (min max n m : Int)
    (h0 : 0 ≤ n) (h1 : min ≤ n) (h2 : n ≤ m) (h3 : m ≤ max) (h4 : m < INT_MAX) :
    get_int_vector_parse_string log_level (to_string n ++ '-' :: to_string m) min max
      = Outcome.ret (int_range n m) ∧
    ((int_range n m).length : Int) = m - n + 1 := by
  have h := parse_chain log_level min max n m [] (by simp) h0 h1 h2 h3 h4
  have e : dash_joined (to_string n :: [] ++ [to_string m])
      = to_string n ++ '-' :: to_string m := by
    simp [dash_joined, List.intercalate]
  rw [e] at h
  exact ⟨h, int_range_length n m h2⟩

/-- At a concrete input: `3-5` with bounds 0 and 10 gives `[3, 4, 5]`. -/
theorem parse_range_witness :
    get_int_vector_parse_string log.Level.info ['3', '-', '5'] 0 10 = Outcome.ret [3, 4, 5] ∧
    (([3, 4, 5] : List Int).length : Int) = 5 - 3 + 1 :=
  parse_range log.Level.info 0 10 3 5 (by decide) (by decide) (by decide) (by decide)
    (by decide)

/-- C6: on the open-ended string `n-` with `min <= n <= max` and `0 <= n` the loop
`for (value = max; value <= n; --value)` runs the wrong way: for `n < max` it does not run
and the result is the empty list; for `n = max` it decrements without end until the counter
overflows. In neither case is the result the range `[n, ..., max]`. -/
theorem open_ended_never_range (log_level : log.Level) (min max n : Int)
    (h0 : 0 ≤ n) (h1 : min ≤ n) (h2 : n ≤ max) (h3 : max ≤ INT_MAX) :
    get_int_vector_parse_string log_level (to_string n ++ ['-']) min max
      = (if n < max then Outcome.ret [] else Outcome.ub) ∧
    get_int_vector_parse_string log_level (to_string n ++ ['-']) min max
      ≠ Outcome.ret (int_range n max) := by
  have _ := h1
  obtain ⟨hn1, hn2, hn3, hn4⟩ := to_string_spec n h0 (by omega)
  have hchars : ∀ c ∈ to_string n ++ ['-'], c = '-' ∨ c.isDigit = true := by
    intro c hc
    rcases List.mem_append.mp hc with hc | hc
    · exact Or.inr (hn2 c hc)
    · exact Or.inl (List.mem_singleton.mp hc)
  have hval : get_int_vector_parse_string log_level (to_string n ++ ['-']) min max
      = (if n < max then Outcome.ret [] else Outcome.ub) := by
    rw [parse_single_field log_level min max _ (by simp) hchars,
      parse_field_from log_level min max (to_string n) n [] hn2 hn1 hn4 h2]
    by_cases hlt : n < max
    · rw [if_pos hlt]
      exact push_descending_skip _ max n [] hlt
    · rw [if_neg hlt]
      exact push_descending_overflow _ max n [] (by omega)
  refine ⟨hval, ?_⟩
  rw [hval]
  have hlen := int_range_length n max h2
  by_cases hlt : n < max
  · rw [if_pos hlt]
    intro heq
    simp only [Outcome.ret.injEq] at heq
    rw [← heq] at hlen
    simp only [List.length_nil, Nat.cast_zero] at hlen
    omega
  · rw [if_neg hlt]
    simp

/-- C6, at a concrete input: `3-` with bounds 0 and 5 gives the empty list, not
`[3, 4, 5]`. -/
theorem open_ended_never_range_witness :
    get_int_vector_parse_string log.Level.info ['3', '-'] 0 5 = Outcome.ret [] ∧
    get_int_vector_parse_string log.Level.info ['3', '-'] 0 5 ≠ Outcome.ret [3, 4, 5] :=
  open_ended_never_range log.Level.info 0 5 3 (by decide) (by decide) (by decide) (by decide)

/-- C7: the format `-m` is documented to give `[_min, m]`, but on `-2147483647` with bounds
0 and 2147483647 the loop from `min` increments its `int` counter past `INT_MAX` after
pushing 2147483647, so the call has no defined result instead of returning
`[0, ..., 2147483647]`. -/
theorem parse_upto_overflow :
    get_int_vector_parse_string log.Level.info ('-' :: to_string 2147483647) 0 2147483647
      = Outcome.ub ∧
    get_int_vector_parse_string log.Level.info ('-' :: to_string 2147483647) 0 2147483647
      ≠ Outcome.ret (int_range 0 2147483647) := by
  have hval := parse_upto_at_int_max log.Level.info 0 2147483647 (by decide)
  have e : INT_MAX = 2147483647 := rfl
  rw [e] at hval
  refine ⟨hval, ?_⟩
  rw [hval]
  exact fun h => Outcome.noConfusion h

/-- Below `INT_MAX` the format `-m` works as documented: for `min <= m <= max` with
`0 <= m` and `m < INT_MAX`, the string `-m` is parsed to exactly `[min, min + 1, ..., m]`,
under every log level. -/
theorem parse_upto (log_level : log.Level) (min max m : Int)
    (h0 : 0 ≤ m) (h1 : min ≤ m) (h2 : m ≤ max) (h4 : m < INT_MAX) :
    get_int_vector_parse_string log_level ('-' :: to_string m) min max
      = Outcome.ret (int_range min m) ∧
    ((int_range min m).length : Int) = m - min + 1 := by
  have _ := h2
  obtain ⟨_, hn2, hn3, hn4⟩ := to_string_spec m h0 (by omega)
  have hchars : ∀ c ∈ '-' :: to_string m, c = '-' ∨ c.isDigit = true := by
    intro c hc
    rcases List.mem_cons.mp hc with hc | hc
    · exact Or.inl hc
    · exact Or.inr (hn2 c hc)
  rw [parse_single_field log_level min max _ (by simp) hchars,
    parse_field_upto log_level min max 1 (to_string m) m [] hn3 hn4 h1 h4]
  exact ⟨by simp, int_range_length min m h1⟩

/-- At a concrete input: `-4` with bounds 1 and 9 gives `[1, 2, 3, 4]`. -/
theorem parse_upto_witness :
    get_int_vector_parse_string log.Level.info ['-', '4'] 1 9 = Outcome.ret [1, 2, 3, 4] ∧
    (([1, 2, 3, 4] : List Int).length : Int) = 4 - 1 + 1 :=
  parse_upto log.Level.info 1 9 4 (by decide) (by decide) (by decide) (by decide)

/-- C8: the branch for `-m` checks `m` against `min` only. The call on `-10` with bounds
0 and 5 succeeds under every log level and returns `[0, 1, ..., 10]`, whose elements 6 to
10 exceed `max`. -/
theorem upto_exceeds_max (log_level : log.Level) :
    get_int_vector_parse_string log_level ['-', '1', '0'] 0 5
      = Outcome.ret [0, 1, 2, 3, 4, 5, 6, 7, 8, 9, 10] ∧
    ¬ (∀ x ∈ ([0, 1, 2, 3, 4, 5, 6, 7, 8, 9, 10] : List Int), 0 ≤ x ∧ x ≤ 5) := by
  cases log_level <;> decide

/-- C9: the format `n-x-y-z-m` is documented to give `[n, m]`, but on
`2147483647-7-2147483647` with bounds 0 and 2147483647 the loop increments its `int`
counter past `INT_MAX` after pushing 2147483647, so the call has no defined result instead
of returning `[2147483647]`, the list `2147483647-2147483647` stands for. -/
theorem parse_chain_overflow :
    get_int_vector_parse_string log.Level.info
        (dash_joined [to_string 2147483647, to_string 7, to_string 2147483647]) 0 2147483647
      = Outcome.ub ∧
    get_int_vector_parse_string log.Level.info
        (dash_joined [to_string 2147483647, to_string 7, to_string 2147483647]) 0 2147483647
      ≠ Outcome.ret (int_range 2147483647 2147483647) := by
  decide

/-- Below `INT_MAX` the format `n-x-...-m` works as documented: for `min <= n <= m <= max`
with `0 <= n` and `m < INT_MAX`, a chain with any natural numbers in between is parsed to
`[n, ..., m]`, the same result as for `n-m`: the numbers in between are not read. -/
theorem parse_chain_numbers (log_level : log.Level) (min max n m : Int) (xs : List Nat)
    (h0 : 0 ≤ n) (h1 : min ≤ n) (h2 : n ≤ m) (h3 : m ≤ max) (h4 : m < INT_MAX) :
    get_int_vector_parse_string log_level
        (dash_joined (to_string n :: xs.map (fun x : Nat => to_string (x : Int))
          ++ [to_string m])) min max
      = Outcome.ret (int_range n m) ∧
    get_int_vector_parse_string log_level
        (dash_joined (to_string n :: xs.map (fun x : Nat => to_string (x : Int))
          ++ [to_string m])) min max
      = get_int_vector_parse_string log_level (dash_joined [to_string n, to_string m])
          min max := by
  have hmid : ∀ f ∈ xs.map (fun x : Nat => to_string (x : Int)), ∀ c ∈ f,
      c.isDigit = true := by
    intro f hf c hc
    obtain ⟨x, _, hx⟩ := List.mem_map.mp hf
    rw [← hx, to_string_nonneg _ (Int.ofNat_nonneg x)] at hc
    exact (toDigits_spec _).2.1 c hc
  have hchain := parse_chain log_level min max n m _ hmid h0 h1 h2 h3 h4
  have hpair := parse_chain log_level min max n m [] (by simp) h0 h1 h2 h3 h4
  exact ⟨hchain, by rw [hchain]; exact hpair.symm⟩

/-- At a concrete input: `3-100-0-5` with bounds 0 and 10 gives `[3, 4, 5]`, as `3-5`
does. -/
theorem parse_chain_numbers_witness :
    get_int_vector_parse_string log.Level.info
        ['3', '-', '1', '0', '0', '-', '0', '-', '5'] 0 10 = Outcome.ret [3, 4, 5] ∧
    get_int_vector_parse_string log.Level.info
        ['3', '-', '1', '0', '0', '-', '0', '-', '5'] 0 10
      = get_int_vector_parse_string log.Level.info ['3', '-', '5'] 0 10 :=
  parse_chain_numbers log.Level.info 0 10 3 5 [100, 0] (by decide) (by decide) (by decide)
    (by decide) (by decide)

end common

/-! ## The property `PyProperty` -/

/-- C10: calling a `PyProperty` always returns an optional and never raises; the optional is
empty exactly when the container lacks the attribute or the attribute is `None`; otherwise
it holds `PyFloat_AsDouble` of the attribute; the `Info` argument does not matter. -/
theorem py_property_soft_miss {Obj Double T : Type} [DecidableEq Obj] (py : Python Obj Double)
    (self : PyProperty Obj) (info : logger.Info T) :
    (∃ r : Option Double, self.call py info = common.Outcome.ret r) ∧
    (self.call py info = common.Outcome.ret none ↔
      (py.getattr self.container_ self.attribute_ = none ∨
        py.getattr self.container_ self.attribute_ = some py.Py_None)) ∧
    (∀ pyobj : Obj, py.getattr self.container_ self.attribute_ = some pyobj →
      pyobj ≠ py.Py_None →
      self.call py info = common.Outcome.ret (some (py.PyFloat_AsDouble pyobj))) ∧
    (∀ other : logger.Info T, self.call py other = self.call py info) := by
  cases h : py.getattr self.container_ self.attribute_ with
  | none => simp [PyProperty.call, Python.hasattr, h]
  | some pyobj =>
    by_cases hn : pyobj = py.Py_None
    · simp [PyProperty.call, Python.hasattr, h, hn]
    · simp [PyProperty.call, Python.hasattr, h, hn]

end ioh

namespace ioh

open common

/-! ## Run attributes bound to a container -/

/-- The call of a `PyProperty`, told by the attribute lookup. -/
theorem PyProperty.call_eq {Obj Double T : Type} [DecidableEq Obj] (py : Python Obj Double)
    (self : PyProperty Obj) (info : logger.Info T) :
    self.call py info =
      match py.getattr self.container_ self.attribute_ with
      | none => Outcome.ret none
      | some pyobj =>
        if pyobj = py.Py_None then Outcome.ret none
        else Outcome.ret (some (py.PyFloat_AsDouble pyobj)) := by
  cases h : py.getattr self.container_ self.attribute_ with
  | none => simp [PyProperty.call, Python.hasattr, h]
  | some pyobj =>
    by_cases hn : pyobj = py.Py_None
    · simp [PyProperty.call, Python.hasattr, h, hn]
    · simp [PyProperty.call, Python.hasattr, h, hn]

/-- The call of a `PyProperty` returns the empty optional when the attribute gives no
value. -/
theorem PyProperty.call_unresolved {Obj Double T : Type} [DecidableEq Obj]
    (py : Python Obj Double) (self : PyProperty Obj) (info : logger.Info T)
    (h : py.unresolved self.container_ self.attribute_) :
    self.call py info = Outcome.ret none := by
  rw [PyProperty.call_eq]
  rcases h with h | h
  · simp [h]
  · simp [h]

/-- The call of a `PyProperty` returns a value when the attribute gives one. -/
theorem PyProperty.call_resolved {Obj Double T : Type} [DecidableEq Obj]
    (py : Python Obj Double) (self : PyProperty Obj) (info : logger.Info T)
    (h : ¬ py.unresolved self.container_ self.attribute_) :
    ∃ value : Double, self.call py info = Outcome.ret (some value) := by
  rw [PyProperty.call_eq]
  cases hg : py.getattr self.container_ self.attribute_ with
  | none => exact absurd (Or.inl hg) h
  | some pyobj =>
    have hn : pyobj ≠ py.Py_None := fun e => h (Or.inr (by rw [hg, e]))
    exact ⟨py.PyFloat_AsDouble pyobj, by simp [hn]⟩

/-- The loop of `attach_problem` returns exactly when every pointer it visits gives a value
and names a registered run attribute; otherwise it raises. -/
theorem PyAnalyzer.attach_problem_loop_spec {W Obj MetaData Double T : Type} [DecidableEq Obj]
    (py : Python Obj Double) (ops : AnalyzerType W Obj MetaData) (self : PyAnalyzer W Obj)
    (empty_info : logger.Info T) (ptrs : List (PyPropertyPtr Obj)) :
    ((∃ written : List (Nat × Double),
        PyAnalyzer.attach_problem_loop py ops self empty_info ptrs = Outcome.ret written) ↔
      ∀ ptr ∈ ptrs, ¬ py.unresolved ptr.target.container_ ptr.target.attribute_ ∧
        (ops.run_at self.watcher.base ptr.target.attribute_).isSome = true) ∧
    ((∃ written : List (Nat × Double),
        PyAnalyzer.attach_problem_loop py ops self empty_info ptrs = Outcome.ret written) ∨
      ∃ e : CppException,
        PyAnalyzer.attach_problem_loop py ops self empty_info ptrs
          = Outcome.throw e) := by
  induction ptrs with
  | nil => exact ⟨by simp [PyAnalyzer.attach_problem_loop], Or.inl ⟨[], rfl⟩⟩
  | cons ptr rest ih =>
    obtain ⟨ihiff, ihor⟩ := ih
    by_cases hu : py.unresolved ptr.target.container_ ptr.target.attribute_
    · have hv := PyProperty.call_unresolved py ptr.target empty_info hu
      have hloop : PyAnalyzer.attach_problem_loop py ops self empty_info
          (ptr :: rest) = Outcome.throw CppException.bad_optional_access := by
        simp [PyAnalyzer.attach_problem_loop, hv, optional_value]
      refine ⟨?_, Or.inr ⟨_, hloop⟩⟩
      rw [hloop]
      constructor
      · rintro ⟨w, hw⟩
        exact Outcome.noConfusion hw
      · intro hall
        exact absurd hu (hall ptr (List.mem_cons_self _ _)).1
    · obtain ⟨value, hv⟩ := PyProperty.call_resolved py ptr.target empty_info hu
      cases hr : ops.run_at self.watcher.base ptr.target.attribute_ with
      | none =>
        have hloop : PyAnalyzer.attach_problem_loop py ops self empty_info
            (ptr :: rest) = Outcome.throw CppException.out_of_range := by
          simp [PyAnalyzer.attach_problem_loop, hv, optional_value,
            PyAnalyzer.set_run_attribute_python, hr]
        refine ⟨?_, Or.inr ⟨_, hloop⟩⟩
        rw [hloop]
        constructor
        · rintro ⟨w, hw⟩
          exact Outcome.noConfusion hw
        · intro hall
          have := (hall ptr (List.mem_cons_self _ _)).2
          rw [hr] at this
          exact absurd this (by simp)
      | some addr =>
        have hstep : PyAnalyzer.attach_problem_loop py ops self empty_info
            (ptr :: rest)
            = (PyAnalyzer.attach_problem_loop py ops self empty_info rest >>=
                fun others => Outcome.ret ((addr, value) :: others)) := by
          simp [PyAnalyzer.attach_problem_loop, hv, optional_value,
            PyAnalyzer.set_run_attribute_python, hr]
        rw [hstep]
        rcases ihor with ⟨w, hw⟩ | ⟨e, he⟩
        · rw [hw]
          refine ⟨?_, Or.inl ⟨_, rfl⟩⟩
          constructor
          · intro _ p hp
            rcases List.mem_cons.mp hp with hp | hp
            · subst hp
              exact ⟨hu, by rw [hr]; rfl⟩
            · exact (ihiff.mp ⟨w, hw⟩) p hp
          · intro _
            exact ⟨_, rfl⟩
        · rw [he]
          refine ⟨?_, Or.inr ⟨e, rfl⟩⟩
          constructor
          · rintro ⟨w, hw⟩
            exact Outcome.noConfusion hw
          · intro hall
            obtain ⟨w, hw⟩ := ihiff.mpr (fun p hp => hall p (List.mem_cons_of_mem _ hp))
            rw [hw] at he
            exact Outcome.noConfusion he

end ioh

namespace ioh

open common

/-- C11, as stated, fails: on a container without the attribute `x` (object 3), and on one
whose `x` is `None` (object 2), `add_run_attribute_python(container, "x")` raises
`std::bad_optional_access`; and after `x` of object 1 was registered and then removed,
`attach_problem` raises `std::bad_optional_access` as well. -/
theorem run_attribute_absent_raises :
    PyAnalyzer.add_run_attribute_python sample_python sample_analyzer
        (PyAnalyzer.init (SampleBase.mk 0 [] [])) sample_info 100 200 3 ['x']
      = Outcome.throw CppException.bad_optional_access ∧
    PyAnalyzer.add_run_attribute_python sample_python sample_analyzer
        (PyAnalyzer.init (SampleBase.mk 0 [] [])) sample_info 100 200 2 ['x']
      = Outcome.throw CppException.bad_optional_access ∧
    ∃ (registered : PyAnalyzer SampleBase Nat) (written : List (Nat × Int)),
      PyAnalyzer.add_run_attribute_python sample_python sample_analyzer
          (PyAnalyzer.init (SampleBase.mk 0 [] [])) sample_info 100 200 1 ['x']
        = Outcome.ret (registered, written) ∧
      PyAnalyzer.attach_problem sample_python_later sample_analyzer registered sample_info ()
        = Outcome.throw CppException.bad_optional_access :=
  ⟨rfl, rfl, _, _, rfl, rfl⟩

/-- C11, amended: `add_run_attribute_python(container, name)` raises
`std::bad_optional_access` when the attribute is absent from the container or is `None` at
the time of the call, and returns otherwise; `attach_problem` returns exactly when every
container-bound run attribute gives a value and is registered under its name, and raises
as soon as one of them gives no value. -/
theorem run_attribute_raises {W Obj MetaData Double T : Type} [DecidableEq Obj]
    (py : Python Obj Double) (ops : AnalyzerType W Obj MetaData) (self : PyAnalyzer W Obj)
    (empty_info : logger.Info T) (p_addr d_addr : Nat) (container : Obj) (name : List Char)
    (problem : MetaData) :
    (py.unresolved container name →
      self.add_run_attribute_python py ops empty_info p_addr d_addr container name
        = Outcome.throw CppException.bad_optional_access) ∧
    (¬ py.unresolved container name →
      ∃ result : PyAnalyzer W Obj × List (Nat × Double),
        self.add_run_attribute_python py ops empty_info p_addr d_addr container name
          = Outcome.ret result) ∧
    ((∃ result : PyAnalyzer W Obj × List (Nat × Double),
        self.attach_problem py ops empty_info problem = Outcome.ret result) ↔
      ∀ ptr ∈ self.prop_ptrs_, ¬ py.unresolved ptr.target.container_ ptr.target.attribute_ ∧
        (ops.run_at self.watcher.base ptr.target.attribute_).isSome = true) ∧
    ((∃ ptr ∈ self.prop_ptrs_, py.unresolved ptr.target.container_ ptr.target.attribute_) →
      ∃ e : CppException, self.attach_problem py ops empty_info problem = Outcome.throw e) := by
  have hloop := PyAnalyzer.attach_problem_loop_spec py ops self empty_info self.prop_ptrs_
  have hiff : (∃ result : PyAnalyzer W Obj × List (Nat × Double),
        self.attach_problem py ops empty_info problem = Outcome.ret result) ↔
      ∀ ptr ∈ self.prop_ptrs_, ¬ py.unresolved ptr.target.container_ ptr.target.attribute_ ∧
        (ops.run_at self.watcher.base ptr.target.attribute_).isSome = true := by
    rw [← hloop.1]
    rcases hloop.2 with ⟨w, hw⟩ | ⟨e, he⟩
    · simp [PyAnalyzer.attach_problem, hw]
    · simp [PyAnalyzer.attach_problem, he]
  refine ⟨?_, ?_, hiff, ?_⟩
  · intro hu
    have hc := PyProperty.call_unresolved py (PyProperty.mk container name) empty_info hu
    simp [PyAnalyzer.add_run_attribute_python, hc, optional_value]
  · intro hu
    obtain ⟨value, hc⟩ :=
      PyProperty.call_resolved py (PyProperty.mk container name) empty_info hu
    have h : self.add_run_attribute_python py ops empty_info p_addr d_addr container name
        = Outcome.ret
            (PyAnalyzer.mk (self.add_run_attribute_python_value ops d_addr name value).1.watcher
              (self.add_run_attribute_python_value ops d_addr name value).1.double_ptrs_
              ((self.add_run_attribute_python_value ops d_addr name value).1.prop_ptrs_
                ++ [PyPropertyPtr.mk p_addr (PyProperty.mk container name)]),
            (self.add_run_attribute_python_value ops d_addr name value).2) := by
      simp [PyAnalyzer.add_run_attribute_python, hc, optional_value]
    exact ⟨_, h⟩
  · rintro ⟨ptr, hmem, hu⟩
    rcases hloop.2 with ⟨w, hw⟩ | ⟨e, he⟩
    · exact absurd hu ((hloop.1.mp ⟨w, hw⟩) ptr hmem).1
    · exact ⟨e, by simp [PyAnalyzer.attach_problem, he]⟩

/-- C11, amended, at a concrete input: object 3 has no attribute `x`, and registering `x`
of object 3 as a run attribute raises `std::bad_optional_access`. -/
theorem run_attribute_raises_witness :
    sample_python.unresolved 3 ['x'] ∧
    PyAnalyzer.add_run_attribute_python sample_python sample_analyzer
        (PyAnalyzer.init (SampleBase.mk 0 [] [])) sample_info 100 200 3 ['x']
      = Outcome.throw CppException.bad_optional_access :=
  ⟨Or.inl rfl,
    (run_attribute_raises sample_python sample_analyzer (PyAnalyzer.init (SampleBase.mk 0 [] []))
      sample_info 100 200 3 ['x'] ()).1 (Or.inl rfl)⟩

/-! ## Closing a watcher -/

/-- No `delete` of a property is an invocation of the underlying `close`. -/
theorem count_base_close_properties {Obj : Type} (ptrs : List (PyPropertyPtr Obj)) :
    List.count Release.base_close
      (ptrs.map (fun ptr => Release.delete_property ptr.addr)) = 0 := by
  induction ptrs with
  | nil => rfl
  | cons ptr rest ih => simp [List.count_cons, ih]

/-- No `delete` of a double is an invocation of the underlying `close`. -/
theorem count_base_close_doubles (ptrs : List Nat) :
    List.count Release.base_close (ptrs.map (fun ptr => Release.delete_double ptr)) = 0 := by
  induction ptrs with
  | nil => rfl
  | cons ptr rest ih => simp [List.count_cons, ih]

/-- C12, as stated, fails on a watcher that is not alive: the watcher that was closed and
then asked to watch `x` owns the property pointer at address 100, and two further calls of
`close()` invoke the underlying `close` zero times and never release that pointer, which the
watcher still owns afterwards. -/
theorem close_twice_releases_nothing :
    sample_watcher_after_close.alive = false ∧
    sample_watcher_after_close.property_ptrs_.map (fun ptr => ptr.addr) = [100] ∧
    List.count Release.base_close
      ((sample_watcher_after_close.close sample_analyzer.toWatcherType).2 ++
        ((sample_watcher_after_close.close sample_analyzer.toWatcherType).1.close
          sample_analyzer.toWatcherType).2) = 0 ∧
    List.count (Release.delete_property 100)
      ((sample_watcher_after_close.close sample_analyzer.toWatcherType).2 ++
        ((sample_watcher_after_close.close sample_analyzer.toWatcherType).1.close
          sample_analyzer.toWatcherType).2) = 0 ∧
    ((sample_watcher_after_close.close sample_analyzer.toWatcherType).1.close
      sample_analyzer.toWatcherType).1.property_ptrs_.map (fun ptr => ptr.addr) = [100] := by
  decide

/-- C12, amended: for `PyWatcher` and `PyAnalyzer`, from any state, a second `close()`
leaves the state of the first and releases nothing; on an object that is alive the two
calls invoke the underlying `close` exactly once and delete exactly the owned pointers,
each once; on an object that is not alive `close()` does nothing. -/
theorem close_twice {W Obj MetaData : Type} (wt : WatcherType W Obj MetaData)
    (ops : AnalyzerType W Obj MetaData) (w : PyWatcher W Obj) (a : PyAnalyzer W Obj) :
    ((w.close wt).1.close wt = ((w.close wt).1, [])) ∧
    (w.alive = true →
      (w.close wt).2 ++ ((w.close wt).1.close wt).2
          = Release.base_close ::
              w.property_ptrs_.map (fun ptr => Release.delete_property ptr.addr) ∧
      List.count Release.base_close ((w.close wt).2 ++ ((w.close wt).1.close wt).2) = 1 ∧
      (w.close wt).1 = PyWatcher.mk (wt.close w.base) false []) ∧
    (w.alive = false → w.close wt = (w, [])) ∧
    ((a.close ops).1.close ops = ((a.close ops).1, [])) ∧
    (a.watcher.alive = true →
      (a.close ops).2 ++ ((a.close ops).1.close ops).2
          = a.double_ptrs_.map (fun ptr => Release.delete_double ptr)
            ++ a.prop_ptrs_.map (fun ptr => Release.delete_property ptr.addr)
            ++ Release.base_close ::
              a.watcher.property_ptrs_.map (fun ptr => Release.delete_property ptr.addr) ∧
      List.count Release.base_close ((a.close ops).2 ++ ((a.close ops).1.close ops).2) = 1 ∧
      (a.close ops).1
        = PyAnalyzer.mk (PyWatcher.mk (ops.close a.watcher.base) false []) [] []) ∧
    (a.watcher.alive = false → a.close ops = (a, [])) := by
  refine ⟨?_, ?_, ?_, ?_, ?_, ?_⟩
  · cases h : w.alive <;> simp [PyWatcher.close, h]
  · intro h
    simp [PyWatcher.close, h, count_base_close_properties]
  · intro h
    simp [PyWatcher.close, h]
  · cases h : a.watcher.alive <;> simp [PyAnalyzer.close, PyAnalyzer.clear_ptrs,
      PyWatcher.close, h]
  · intro h
    simp [PyAnalyzer.close, PyAnalyzer.clear_ptrs, PyWatcher.close, h,
      count_base_close_properties, count_base_close_doubles]
  · intro h
    simp [PyAnalyzer.close, h]

/-- C12, amended, at a concrete input: a live watcher owning the pointers at 100 and 101
invokes the underlying `close` once and deletes each pointer once over two calls of
`close()`. -/
theorem close_twice_witness :
    ((PyWatcher.mk (SampleBase.mk 0 [100, 101] []) true
        [PyPropertyPtr.mk 100 (PyProperty.mk 1 ['x']),
          PyPropertyPtr.mk 101 (PyProperty.mk 2 ['x'])]).close
          sample_analyzer.toWatcherType).2 ++
      (((PyWatcher.mk (SampleBase.mk 0 [100, 101] []) true
        [PyPropertyPtr.mk 100 (PyProperty.mk 1 ['x']),
          PyPropertyPtr.mk 101 (PyProperty.mk 2 ['x'])]).close
          sample_analyzer.toWatcherType).1.close sample_analyzer.toWatcherType).2
      = [Release.base_close, Release.delete_property 100, Release.delete_property 101] :=
  ((close_twice sample_analyzer.toWatcherType sample_analyzer
    (PyWatcher.mk (SampleBase.mk 0 [100, 101] []) true
      [PyPropertyPtr.mk 100 (PyProperty.mk 1 ['x']),
        PyPropertyPtr.mk 101 (PyProperty.mk 2 ['x'])])
    (PyAnalyzer.init (SampleBase.mk 0 [] []))).2.1 rfl).1

/-! ## Watching after `close()` -/

/-- C13, as stated, fails: on the watcher that was constructed and closed,
`watch(container, "x")` registers the property at address 100 with the underlying watcher
and leaves one owned property pointer, so the state has changed. -/
theorem watch_after_close_changes :
    ((PyWatcher.init (SampleBase.mk 0 [] []) : PyWatcher SampleBase Nat).close
        sample_analyzer.toWatcherType).1
      = PyWatcher.mk (SampleBase.mk 1 [] []) false [] ∧
    (sample_watcher_after_close.base.watched = [100] ∧
      sample_watcher_after_close.property_ptrs_.map (fun ptr => ptr.addr) = [100] ∧
      sample_watcher_after_close.property_ptrs_ ≠ []) := by
  refine ⟨rfl, ?_, ?_, ?_⟩
  · decide
  · decide
  · intro h
    have := congrArg List.length h
    simp [sample_watcher_after_close, PyWatcher.watch] at this

/-- C13, amended: `watch(container, attribute)` does not test `alive`. On every watcher,
closed or not, it passes the new property to the underlying `watch`, appends its pointer to
the owned pointers and leaves `alive` as it is; so the watcher is never left unchanged, and
after `close()` on a live watcher the owned pointers are exactly the new one. -/
theorem watch_ignores_alive {W Obj MetaData : Type} (wt : WatcherType W Obj MetaData)
    (self : PyWatcher W Obj) (p_addr : Nat) (container : Obj) (attr : List Char) :
    (self.watch wt p_addr container attr).base
      = wt.watch self.base (PyPropertyPtr.mk p_addr (PyProperty.mk container attr)) ∧
    (self.watch wt p_addr container attr).property_ptrs_
      = self.property_ptrs_ ++ [PyPropertyPtr.mk p_addr (PyProperty.mk container attr)] ∧
    (self.watch wt p_addr container attr).alive = self.alive ∧
    self.watch wt p_addr container attr ≠ self ∧
    (self.alive = true →
      ((self.close wt).1.watch wt p_addr container attr).alive = false ∧
      ((self.close wt).1.watch wt p_addr container attr).property_ptrs_
        = [PyPropertyPtr.mk p_addr (PyProperty.mk container attr)] ∧
      ((self.close wt).1.watch wt p_addr container attr).base
        = wt.watch (wt.close self.base)
            (PyPropertyPtr.mk p_addr (PyProperty.mk container attr))) := by
  refine ⟨rfl, rfl, rfl, ?_, ?_⟩
  · intro h
    have := congrArg (fun s : PyWatcher W Obj => s.property_ptrs_.length) h
    simp [PyWatcher.watch, PyWatcher.watch_property] at this
  · intro h
    simp [PyWatcher.close, PyWatcher.watch, PyWatcher.watch_property, h]

/-- C13, amended, at a concrete input: after `close()` on a new watcher, watching `x` of
object 1 leaves `alive` false and the one new pointer owned. -/
theorem watch_ignores_alive_witness :
    (((PyWatcher.init (SampleBase.mk 0 [] []) : PyWatcher SampleBase Nat).close
        sample_analyzer.toWatcherType).1.watch sample_analyzer.toWatcherType 100 1 ['x']).alive
      = false ∧
    (((PyWatcher.init (SampleBase.mk 0 [] []) : PyWatcher SampleBase Nat).close
        sample_analyzer.toWatcherType).1.watch sample_analyzer.toWatcherType 100 1
          ['x']).property_ptrs_
      = [PyPropertyPtr.mk 100 (PyProperty.mk 1 ['x'])] :=
  ⟨((watch_ignores_alive sample_analyzer.toWatcherType (PyWatcher.init (SampleBase.mk 0 [] []))
      100 1 ['x']).2.2.2.2 rfl).1,
    ((watch_ignores_alive sample_analyzer.toWatcherType (PyWatcher.init (SampleBase.mk 0 [] []))
      100 1 ['x']).2.2.2.2 rfl).2.1⟩

end ioh
